import Mathlib

/-!
A verification development for the ArchiverTool repository, which retrieves
historical time-series data from the MAX-IV HDB++ archiver.  The repository
has two source files:

* `archiver_tool.py` — the REST path: pattern resolution (`get_attributes`),
  concurrent fetching (`do_request`, `sync_do_request`), single-signal access
  (`query`), response formatting (`parse_response`) and the sampling-interval
  validator (`interval_value`).
* `lowlevel_tool.py` — the low-level Cassandra path: the per-day range
  splitter (`LowlevelSignal.parse_datetimerange`), the per-day query builder
  (`LowlevelSignal.data_query`) and its own `parse_response`.

Python strings are modelled as lists of characters, Python datetimes by
records at microsecond resolution (the resolution of Python `datetime`),
network calls by explicit environment functions, and exceptions by `Except`.
-/

/-- Characters of a Python string. -/
abbrev Str := List Char

/- ----------------------------------------------------------------------
   lowlevel_tool.py : dates, `parse_datetimerange`, `data_query`
   ---------------------------------------------------------------------- -/

/-- Microseconds per calendar day. -/
def usPerDay : Nat := 86400000000

/-- Python `datetime` as used by the date-splitting logic of
`lowlevel_tool.py`: an ordinal day number plus the microsecond offset
within that day.  (Python datetimes have microsecond resolution; the
calendar rendering of the ordinal plays no role in the splitting logic.)
A valid value has `usec < usPerDay`. -/
structure PyDateTime where
  day : Nat
  usec : Nat
deriving DecidableEq, Repr

/-- The `.date()` accessor of a Python datetime: its ordinal day. -/
def PyDateTime.date (t : PyDateTime) : Nat := t.day

/-- Position of a datetime on the absolute microsecond timeline. -/
def PyDateTime.toUs (t : PyDateTime) : Nat := t.day * usPerDay + t.usec

/-- The `datetime.combine(date, time(h, m, s))` calls of
`LowlevelSignal.data_query`, with the time of day given in microseconds. -/
def combine (d : Nat) (u : Nat) : PyDateTime := ⟨d, u⟩

/-- A `(start, end)` pair in which either component may be the Python
`None` sentinel, exactly as built by `parse_datetimerange`. -/
abbrev TimeRangeOpt := Option PyDateTime × Option PyDateTime

/-- The `while not runningdate == end.date()` loop of
`LowlevelSignal.parse_datetimerange` (lowlevel_tool.py lines 169-172):
each iteration advances `runningdate` by one day and appends it to
`periods` and an unconstrained `(None, None)` range to `timeranges`.
The loop is given explicit fuel.  This variant abstracts the day
counter as an unbounded ordinal, which is faithful exactly while the
running date stays at or below a valid end date — the situation of the
splitting claims, whose inputs are valid dates; `dtrLoopOv` below
additionally models Python's `date.max` bound and the `OverflowError`
that `runningdate += timedelta(days=1)` raises there. -/
def dtrLoop (endDay : Nat) : Nat → Nat → List Nat → List TimeRangeOpt →
    Option (List Nat × List TimeRangeOpt)
  | fuel, runningdate, periods, timeranges =>
    if runningdate = endDay then some (periods, timeranges)
    else
      match fuel with
      | 0 => none
      | fuel + 1 =>
          dtrLoop endDay fuel (runningdate + 1) (periods ++ [runningdate + 1])
            (timeranges ++ [(none, none)])

/-- `LowlevelSignal.parse_datetimerange` (lowlevel_tool.py lines 153-174).
If start and end fall on the same date it returns the single exact range;
otherwise it seeds `periods`/`timeranges`, runs the day-advancing loop,
and finally overwrites the last timerange with `(None, end)`.
Returns `none` when the loop fuel is exhausted (the source loop would
still be running). -/
def parse_datetimerange (fuel : Nat) (start endv : PyDateTime) :
    Option (List Nat × List TimeRangeOpt) :=
  if start.date = endv.date then
    some ([start.date], [(some start, some endv)])
  else
    match dtrLoop endv.date fuel start.date [start.date] [(some start, none)] with
    | none => none
    | some (periods, timeranges) =>
        some (periods, timeranges.dropLast ++ [(none, some endv)])

/-- Sentinel expansion performed by `LowlevelSignal.data_query`
(lowlevel_tool.py lines 117-124): a `None` start becomes
`datetime.combine(date, time(0, 0, 0))` and a `None` end becomes
`datetime.combine(date, time(23, 59, 59))` (86399000000 microseconds
into the day).  We model the effective `(start, end)` bounds that the
generated CQL embeds; the surrounding SQL text is irrelevant to the
range semantics. -/
def data_query_range (date : Nat) (timerange : TimeRangeOpt) :
    PyDateTime × PyDateTime :=
  (timerange.1.getD (combine date 0),
   timerange.2.getD (combine date 86399000000))

/-- The per-partition queries issued by `get_data`/`async_get_data`:
`data_query(date=p, timerange=t)` for `p, t` in `zip(periods, timeranges)`. -/
def subranges (periods : List Nat) (timeranges : List TimeRangeOpt) :
    List (PyDateTime × PyDateTime) :=
  List.zipWith data_query_range periods timeranges

/-- Membership in the data selected by one generated query: the CQL
condition is `data_time > start and data_time < end` — both bounds
strict (lowlevel_tool.py line 126). -/
def inQueryRange (r : PyDateTime × PyDateTime) (t : Nat) : Prop :=
  r.1.toUs < t ∧ t < r.2.toUs

instance (r : PyDateTime × PyDateTime) (t : Nat) : Decidable (inQueryRange r t) :=
  inferInstanceAs (Decidable (_ ∧ _))

/- ----------------------------------------------------------------------
   Helper lemmas about the day-advancing loop
   ---------------------------------------------------------------------- -/

/-- With enough fuel and the running date at or before the end date, the
loop terminates and appends one entry per remaining day. -/
theorem dtrLoop_closed (endDay : Nat) :
    ∀ (fuel runningdate : Nat) (periods : List Nat) (timeranges : List TimeRangeOpt),
      runningdate ≤ endDay → endDay - runningdate ≤ fuel →
      dtrLoop endDay fuel runningdate periods timeranges =
        some (periods ++ List.range' (runningdate + 1) (endDay - runningdate),
              timeranges ++ List.replicate (endDay - runningdate) (none, none)) := by
  intro fuel
  induction fuel with
  | zero =>
      intro runningdate periods timeranges h1 h2
      have : runningdate = endDay := by omega
      subst this
      simp [dtrLoop]
  | succ n ih =>
      intro runningdate periods timeranges h1 h2
      by_cases h : runningdate = endDay
      · subst h
        simp [dtrLoop]
      · simp only [dtrLoop]
        rw [if_neg h]
        rw [ih (runningdate + 1) _ _ (by omega) (by omega)]
        have hk : endDay - runningdate = (endDay - (runningdate + 1)) + 1 := by omega
        rw [hk, List.range'_succ, List.replicate_succ]
        simp

/-- Closed form of `parse_datetimerange` on a range that crosses at least
one midnight, with sufficient fuel. -/
theorem parse_datetimerange_closed (start endv : PyDateTime) (fuel : Nat)
    (hd : start.day < endv.day) (hf : endv.day - start.day ≤ fuel) :
    parse_datetimerange fuel start endv =
      some (List.range' start.day (endv.day - start.day + 1),
            (some start, none) ::
              (List.replicate (endv.day - start.day - 1) ((none : Option PyDateTime), (none : Option PyDateTime)) ++
                [((none : Option PyDateTime), some endv)])) := by
  have hne : ¬ start.date = endv.date := by
    simp only [PyDateTime.date]; omega
  simp only [parse_datetimerange]
  rw [if_neg hne]
  rw [dtrLoop_closed endv.date fuel start.date _ _ (by simp [PyDateTime.date]; omega)
      (by simp [PyDateTime.date]; omega)]
  simp only [PyDateTime.date]
  have hdiff : endv.day - start.day = (endv.day - start.day - 1) + 1 := by omega
  congr 1
  refine Prod.ext ?_ ?_
  · show start.day :: List.range' (start.day + 1) (endv.day - start.day) =
      List.range' start.day (endv.day - start.day + 1)
    rw [List.range'_succ]
  · show (((some start, (none : Option PyDateTime)) ::
        List.replicate (endv.day - start.day) ((none : Option PyDateTime), (none : Option PyDateTime))).dropLast ++
        [((none : Option PyDateTime), some endv)]) = _
    rw [hdiff, List.replicate_succ' (endv.day - start.day - 1)]
    rw [show ((some start, (none : Option PyDateTime)) ::
          (List.replicate (endv.day - start.day - 1) ((none : Option PyDateTime), (none : Option PyDateTime)) ++
            [((none : Option PyDateTime), (none : Option PyDateTime))])) =
        (((some start, (none : Option PyDateTime)) ::
          List.replicate (endv.day - start.day - 1) ((none : Option PyDateTime), (none : Option PyDateTime))) ++
            [((none : Option PyDateTime), (none : Option PyDateTime))]) from by simp]
    rw [List.dropLast_concat]
    simp

/- ----------------------------------------------------------------------
   C8: single-day ranges give exactly one exact partition
   ---------------------------------------------------------------------- -/

/-- C8.  For every TimeRange whose start and end fall on the same calendar
date — including the zero-length case `start = end` — `parse_datetimerange`
returns exactly one partition whose date is that calendar date and whose
sub-range is exactly the input range (no sentinels involved). -/
theorem date_split_single_day (start endv : PyDateTime) (fuel : Nat)
    (h : start.date = endv.date) :
    parse_datetimerange fuel start endv =
      some ([start.date], [(some start, some endv)]) := by
  simp only [parse_datetimerange]
  rw [if_pos h]

/-- Witness for C8 at a concrete zero-length range (start = end). -/
theorem date_split_single_day_witness :
    parse_datetimerange 0 ⟨5, 123⟩ ⟨5, 123⟩ =
      some ([5], [(some ⟨5, 123⟩, some ⟨5, 123⟩)]) :=
  date_split_single_day ⟨5, 123⟩ ⟨5, 123⟩ 0 (by decide)

/- ----------------------------------------------------------------------
   C9: termination of the day-advancing loop under Python's date bound
   ---------------------------------------------------------------------- -/

/-- The ordinal of `datetime.date.max`, 9999-12-31: Python dates are
bounded, and `date.max + timedelta(days=1)` raises `OverflowError`. -/
def dateMaxOrdinal : Nat := 3652059

/-- The day-advancing loop with Python's date arithmetic modelled
faithfully: when `runningdate` is already at `date.max`, the increment
`runningdate += timedelta(days=1)` raises `OverflowError` — the
`Except.error ()` outcome.  `none` is fuel exhaustion only. -/
def dtrLoopOv (endDay : Nat) : Nat → Nat → List Nat → List TimeRangeOpt →
    Option (Except Unit (List Nat × List TimeRangeOpt))
  | fuel, runningdate, periods, timeranges =>
    if runningdate = endDay then some (Except.ok (periods, timeranges))
    else if dateMaxOrdinal ≤ runningdate then some (Except.error ())
    else
      match fuel with
      | 0 => none
      | fuel + 1 =>
          dtrLoopOv endDay fuel (runningdate + 1) (periods ++ [runningdate + 1])
            (timeranges ++ [(none, none)])

/-- `parse_datetimerange` over the bounded-date loop: a normal return is
`Except.ok`, an `OverflowError` escaping the loop is `Except.error`. -/
def parse_datetimerange_ov (fuel : Nat) (start endv : PyDateTime) :
    Option (Except Unit (List Nat × List TimeRangeOpt)) :=
  if start.date = endv.date then
    some (Except.ok ([start.date], [(some start, some endv)]))
  else
    match dtrLoopOv endv.date fuel start.date [start.date] [(some start, none)] with
    | none => none
    | some (Except.error e) => some (Except.error e)
    | some (Except.ok (periods, timeranges)) =>
        some (Except.ok (periods, timeranges.dropLast ++ [(none, some endv)]))

/-- On a forwards range within valid dates the bounded loop returns
normally, never reaching the overflow. -/
theorem dtrLoopOv_ok (endDay : Nat) (hmax : endDay ≤ dateMaxOrdinal) :
    ∀ (fuel runningdate : Nat) (periods : List Nat) (timeranges : List TimeRangeOpt),
      runningdate ≤ endDay → endDay - runningdate ≤ fuel →
      dtrLoopOv endDay fuel runningdate periods timeranges =
        some (Except.ok (periods ++ List.range' (runningdate + 1) (endDay - runningdate),
              timeranges ++ List.replicate (endDay - runningdate) (none, none))) := by
  intro fuel
  induction fuel with
  | zero =>
      intro runningdate periods timeranges h1 h2
      have : runningdate = endDay := by omega
      subst this
      simp [dtrLoopOv]
  | succ n ih =>
      intro runningdate periods timeranges h1 h2
      by_cases h : runningdate = endDay
      · subst h
        simp [dtrLoopOv]
      · simp only [dtrLoopOv]
        rw [if_neg h, if_neg (by omega)]
        rw [ih (runningdate + 1) _ _ (by omega) (by omega)]
        have hk : endDay - runningdate = (endDay - (runningdate + 1)) + 1 := by omega
        rw [hk, List.range'_succ, List.replicate_succ]
        simp

/-- On a backwards range the bounded loop advances until the date
increment overflows, then terminates abnormally. -/
theorem dtrLoopOv_overflow (endDay : Nat) :
    ∀ (fuel runningdate : Nat) (periods : List Nat) (timeranges : List TimeRangeOpt),
      endDay < runningdate → dateMaxOrdinal - runningdate ≤ fuel →
      dtrLoopOv endDay fuel runningdate periods timeranges = some (Except.error ()) := by
  intro fuel
  induction fuel with
  | zero =>
      intro runningdate periods timeranges h1 h2
      simp only [dtrLoopOv]
      rw [if_neg (by omega), if_pos (by simp only [dateMaxOrdinal] at h2 ⊢; omega)]
  | succ n ih =>
      intro runningdate periods timeranges h1 h2
      simp only [dtrLoopOv]
      rw [if_neg (by omega)]
      by_cases h : dateMaxOrdinal ≤ runningdate
      · rw [if_pos h]
      · rw [if_neg h]
        exact ih (runningdate + 1) _ _ (by omega) (by omega)

/-- On a backwards range the bounded loop never reaches the end date:
no fuel makes it return a normal result. -/
theorem dtrLoopOv_no_ok (endDay : Nat) :
    ∀ (fuel runningdate : Nat) (periods : List Nat) (timeranges : List TimeRangeOpt)
      (r : List Nat × List TimeRangeOpt),
      endDay < runningdate →
      dtrLoopOv endDay fuel runningdate periods timeranges ≠ some (Except.ok r) := by
  intro fuel
  induction fuel with
  | zero =>
      intro runningdate periods timeranges r h1
      simp only [dtrLoopOv]
      rw [if_neg (by omega)]
      by_cases h : dateMaxOrdinal ≤ runningdate
      · rw [if_pos h]
        simp
      · rw [if_neg h]
        simp
  | succ n ih =>
      intro runningdate periods timeranges r h1
      simp only [dtrLoopOv]
      rw [if_neg (by omega)]
      by_cases h : dateMaxOrdinal ≤ runningdate
      · rw [if_pos h]
        simp
      · rw [if_neg h]
        exact ih (runningdate + 1) _ _ r (by omega)

/-- C9 counterexample.  The claim asserts that for a backwards range the
function does not terminate; but Python dates are bounded, so the loop
terminates abnormally: starting two days before `date.max` with an
earlier end date, two iterations bring the running date to `date.max`
and the next `+= timedelta(days=1)` raises `OverflowError` — the call
resolves (here within fuel 2) instead of running forever. -/
theorem date_split_overflow_counterexample :
    parse_datetimerange_ov 2 ⟨3652057, 0⟩ ⟨1, 0⟩ = some (Except.error ()) := by
  rfl

/-- C9 as amended.  Over Python's bounded dates, `parse_datetimerange`
returns normally if and only if `start.date ≤ end.date` (valid dates
assumed): forwards ranges return with fuel `end.date - start.date`;
backwards ranges never reach the end date — no fuel yields a normal
result — and instead terminate abnormally with `OverflowError` once the
running date passes `date.max`, after finitely many iterations. -/
theorem date_split_termination_amended (start endv : PyDateTime)
    (hvs : start.day ≤ dateMaxOrdinal) (hve : endv.day ≤ dateMaxOrdinal) :
    (start.date ≤ endv.date →
      ∃ periods timeranges,
        parse_datetimerange_ov (endv.date - start.date) start endv =
          some (Except.ok (periods, timeranges))) ∧
    (endv.date < start.date →
      parse_datetimerange_ov (dateMaxOrdinal - start.date) start endv =
        some (Except.error ()) ∧
      ∀ (fuel : Nat) (periods : List Nat) (timeranges : List TimeRangeOpt),
        parse_datetimerange_ov fuel start endv ≠
          some (Except.ok (periods, timeranges))) := by
  constructor
  · intro h
    by_cases heq : start.date = endv.date
    · refine ⟨[start.date], [(some start, some endv)], ?_⟩
      simp only [parse_datetimerange_ov]
      rw [if_pos heq]
    · have hlt : start.day < endv.day := by
        simp only [PyDateTime.date] at h heq
        omega
      have hrun := dtrLoopOv_ok endv.date (by simp only [PyDateTime.date]; omega)
        (endv.date - start.date) start.date [start.date] [(some start, none)]
        (by simp only [PyDateTime.date]; omega) (by simp only [PyDateTime.date]; omega)
      exact ⟨_, _, by
        simp only [parse_datetimerange_ov]
        rw [if_neg heq, hrun]⟩
  · intro h
    have hne : ¬ start.date = endv.date := by
      simp only [PyDateTime.date] at h ⊢
      omega
    constructor
    · simp only [parse_datetimerange_ov]
      rw [if_neg hne]
      rw [dtrLoopOv_overflow endv.date _ start.date _ _
        (by simp only [PyDateTime.date] at h ⊢; omega)
        (by simp only [PyDateTime.date]; omega)]
    · intro fuel periods timeranges hcontra
      simp only [parse_datetimerange_ov] at hcontra
      rw [if_neg hne] at hcontra
      cases hdl : dtrLoopOv endv.date fuel start.date [start.date] [(some start, none)] with
      | none =>
          rw [hdl] at hcontra
          cases hcontra
      | some e =>
          cases e with
          | error u =>
              rw [hdl] at hcontra
              cases hcontra
          | ok rr =>
              exact dtrLoopOv_no_ok endv.date fuel start.date _ _ rr
                (by simp only [PyDateTime.date] at h ⊢; omega) hdl

/-- Witness for the amended C9: a concrete backwards range overflows, a
concrete forwards range returns normally. -/
theorem date_split_termination_amended_witness :
    parse_datetimerange_ov (3652059 - 3652057) ⟨3652057, 0⟩ ⟨1, 0⟩ =
      some (Except.error ()) := by
  have h := (date_split_termination_amended ⟨3652057, 0⟩ ⟨1, 0⟩
    (by decide) (by decide)).2 (by decide)
  exact h.1

/- ----------------------------------------------------------------------
   C1: multi-day splitting — partition count/order hold, full coverage
   does not (the 23:59:59 sentinel leaves a gap before each midnight)
   ---------------------------------------------------------------------- -/

/-- Strict ascending order of `List.range'` with step 1. -/
theorem pairwise_lt_range1 : ∀ (n s : Nat), List.Pairwise (· < ·) (List.range' s n) := by
  intro n
  induction n with
  | zero => intro s; simp
  | succ k ih =>
      intro s
      rw [List.range'_succ]
      refine List.Pairwise.cons ?_ (ih (s + 1))
      intro x hx
      have := List.mem_range'_1.mp hx
      omega

/-- Zipping a list with a constant replicate of its own length is a map. -/
theorem zipWith_replicate_len {α β γ : Type} (f : α → β → γ) (c : β) :
    ∀ l : List α, List.zipWith f l (List.replicate l.length c) = l.map (fun a => f a c) := by
  intro l
  induction l with
  | nil => simp
  | cons a l ih => simp [List.replicate_succ, ih]

/-- Explicit form of the per-day query bounds produced for a range that
crosses at least one midnight: the first day keeps its true start and is
capped at 23:59:59, full middle days run 00:00:00 to 23:59:59, and the
last day starts at 00:00:00 and keeps the true end. -/
theorem subranges_closed (start endv : PyDateTime) (hd : start.day < endv.day) :
    subranges (List.range' start.day (endv.day - start.day + 1))
      ((some start, none) ::
        (List.replicate (endv.day - start.day - 1) ((none : Option PyDateTime), (none : Option PyDateTime)) ++
          [((none : Option PyDateTime), some endv)])) =
    (start, combine start.day 86399000000) ::
      ((List.range' (start.day + 1) (endv.day - start.day - 1)).map
        (fun d => (combine d 0, combine d 86399000000)) ++ [(combine endv.day 0, endv)]) := by
  unfold subranges
  rw [List.range'_succ]
  rw [List.zipWith_cons_cons]
  have h1 : endv.day - start.day = (endv.day - start.day - 1) + 1 := by omega
  rw [h1, List.range'_concat]
  rw [List.zipWith_append _ _ _ _ _ (by simp)]
  simp only [Nat.add_sub_cancel]
  have h2 : List.replicate (endv.day - start.day - 1) ((none : Option PyDateTime), (none : Option PyDateTime)) =
      List.replicate (List.range' (start.day + 1) (endv.day - start.day - 1)).length
        ((none : Option PyDateTime), (none : Option PyDateTime)) := by
    simp
  rw [h2, zipWith_replicate_len]
  have h3 : start.day + 1 + 1 * (endv.day - start.day - 1) = endv.day := by omega
  rw [h3]
  rfl

/-- C1 counterexample.  The claim asserts the expanded sub-ranges cover the
original range with no gap, but the instant 23:59:59.000000 on the first
day (microsecond 86399000000) lies inside the original two-day range
`(⟨0,0⟩, ⟨1,500000⟩)` and inside neither generated query range: the first
day's query is capped at `data_time < 23:59:59` (strict) and the second
day's query starts at `data_time > 00:00:00` (strict).  Every instant in
`(23:59:59.000000, 24:00:00.000000]` of the first day is likewise lost. -/
theorem date_split_gap_counterexample :
    parse_datetimerange 1 ⟨0, 0⟩ ⟨1, 500000⟩ =
      some ([0, 1], [(some ⟨0, 0⟩, none), (none, some ⟨1, 500000⟩)]) ∧
    inQueryRange (⟨0, 0⟩, ⟨1, 500000⟩) 86399000000 ∧
    ¬ inQueryRange (data_query_range 0 (some ⟨0, 0⟩, none)) 86399000000 ∧
    ¬ inQueryRange (data_query_range 1 (none, some ⟨1, 500000⟩)) 86399000000 := by
  refine ⟨by decide, by decide, by decide, by decide⟩

/-- C1 as amended.  For a range spanning N calendar days (N > 1, valid
datetimes), `parse_datetimerange` returns exactly N partitions, one per
day, ordered strictly ascending by date, whose expanded query sub-ranges
are mutually non-overlapping; but their union is NOT the whole original
range: an instant is covered iff it lies strictly inside the original
range AND does not fall in the closed gap from 23:59:59.000000 to the
following midnight of any day before the last. -/
theorem date_split_partition_amended (start endv : PyDateTime)
    (hd : start.day < endv.day) (hs : start.usec < usPerDay) (he : endv.usec < usPerDay) :
    ∃ periods timeranges,
      parse_datetimerange (endv.day - start.day) start endv = some (periods, timeranges) ∧
      periods.length = endv.day - start.day + 1 ∧
      timeranges.length = endv.day - start.day + 1 ∧
      periods = List.range' start.day (endv.day - start.day + 1) ∧
      List.Pairwise (· < ·) periods ∧
      List.Pairwise (fun r q => r.2.toUs ≤ q.1.toUs) (subranges periods timeranges) ∧
      ∀ t : Nat, (∃ r ∈ subranges periods timeranges, inQueryRange r t) ↔
        (start.toUs < t ∧ t < endv.toUs ∧
          ∀ d, start.day ≤ d → d < endv.day →
            (t < d * usPerDay + 86399000000 ∨ (d + 1) * usPerDay < t)) := by
  simp only [usPerDay] at hs he
  refine ⟨_, _, parse_datetimerange_closed start endv _ hd (le_refl _),
    by simp, by simp; omega, rfl, pairwise_lt_range1 _ _, ?_, ?_⟩
  · rw [subranges_closed start endv hd]
    refine List.Pairwise.cons ?_ ?_
    · intro q hq
      rcases List.mem_append.mp hq with hq | hq
      · rcases List.mem_map.mp hq with ⟨d, hd2, rfl⟩
        have hdm := List.mem_range'_1.mp hd2
        simp only [PyDateTime.toUs, combine, usPerDay]
        omega
      · rcases List.mem_singleton.mp hq with rfl
        simp only [PyDateTime.toUs, combine, usPerDay]
        omega
    · rw [List.pairwise_append]
      refine ⟨?_, by simp, ?_⟩
      · rw [List.pairwise_map]
        refine List.Pairwise.imp ?_ (pairwise_lt_range1 _ _)
        intro a b hab
        simp only [PyDateTime.toUs, combine, usPerDay]
        omega
      · intro a ha b hb
        rcases List.mem_map.mp ha with ⟨d, hd2, rfl⟩
        rcases List.mem_singleton.mp hb with rfl
        have hdm := List.mem_range'_1.mp hd2
        simp only [PyDateTime.toUs, combine, usPerDay]
        omega
  · rw [subranges_closed start endv hd]
    intro t
    constructor
    · rintro ⟨r, hr, hq⟩
      rcases List.mem_cons.mp hr with rfl | hr
      · simp only [inQueryRange, PyDateTime.toUs, combine, usPerDay] at hq
        obtain ⟨hq1, hq2⟩ := hq
        simp only [PyDateTime.toUs, usPerDay]
        refine ⟨by omega, by omega, ?_⟩
        intro d h1 h2
        omega
      · rcases List.mem_append.mp hr with hr | hr
        · rcases List.mem_map.mp hr with ⟨d, hd2, rfl⟩
          have hdm := List.mem_range'_1.mp hd2
          simp only [inQueryRange, PyDateTime.toUs, combine, usPerDay] at hq
          obtain ⟨hq1, hq2⟩ := hq
          simp only [PyDateTime.toUs, usPerDay]
          refine ⟨by omega, by omega, ?_⟩
          intro d2 h1 h2
          omega
        · rcases List.mem_singleton.mp hr with rfl
          simp only [inQueryRange, PyDateTime.toUs, combine, usPerDay] at hq
          obtain ⟨hq1, hq2⟩ := hq
          simp only [PyDateTime.toUs, usPerDay]
          refine ⟨by omega, by omega, ?_⟩
          intro d2 h1 h2
          omega
    · rintro ⟨h1, h2, hall⟩
      simp only [PyDateTime.toUs, usPerDay] at h1 h2
      by_cases hA : t < start.day * 86400000000 + 86399000000
      · refine ⟨(start, combine start.day 86399000000), List.mem_cons_self _ _, ?_⟩
        simp only [inQueryRange, PyDateTime.toUs, combine, usPerDay]
        exact ⟨by omega, by omega⟩
      · push_neg at hA
        have hB : (start.day + 1) * 86400000000 < t := by
          rcases hall start.day (le_refl _) hd with h | h
          · simp only [usPerDay] at h; omega
          · simp only [usPerDay] at h; omega
        by_cases hmE : t / 86400000000 = endv.day
        · have het : endv.day * 86400000000 < t := by
            rcases hall (endv.day - 1) (by omega) (by omega) with h | h
            · simp only [usPerDay] at h; omega
            · simp only [usPerDay] at h; omega
          refine ⟨(combine endv.day 0, endv), ?_, ?_⟩
          · exact List.mem_cons_of_mem _ (List.mem_append_right _ (List.mem_singleton_self _))
          · simp only [inQueryRange, PyDateTime.toUs, combine, usPerDay]
            exact ⟨by omega, by omega⟩
        · have h5 : (t / 86400000000) * 86400000000 < t := by
            rcases hall (t / 86400000000 - 1) (by omega) (by omega) with h | h
            · simp only [usPerDay] at h; omega
            · simp only [usPerDay] at h; omega
          have h6 : t < (t / 86400000000) * 86400000000 + 86399000000 := by
            rcases hall (t / 86400000000) (by omega) (by omega) with h | h
            · simp only [usPerDay] at h; omega
            · simp only [usPerDay] at h; omega
          refine ⟨(combine (t / 86400000000) 0, combine (t / 86400000000) 86399000000), ?_, ?_⟩
          · refine List.mem_cons_of_mem _ (List.mem_append_left _ ?_)
            exact List.mem_map.mpr
              ⟨t / 86400000000, List.mem_range'_1.mpr ⟨by omega, by omega⟩, rfl⟩
          · simp only [inQueryRange, PyDateTime.toUs, combine, usPerDay]
            exact ⟨by omega, by omega⟩

/-- Witness for the amended C1 at a concrete three-day range. -/
theorem date_split_partition_amended_witness :
    (parse_datetimerange 2 ⟨0, 5⟩ ⟨2, 7⟩).isSome = true := by
  obtain ⟨periods, timeranges, h1, -⟩ :=
    date_split_partition_amended ⟨0, 5⟩ ⟨2, 7⟩ (by decide) (by decide) (by decide)
  have h2 : parse_datetimerange 2 ⟨0, 5⟩ ⟨2, 7⟩ = some (periods, timeranges) := h1
  rw [h2]
  rfl

/- ----------------------------------------------------------------------
   archiver_tool.py : pattern resolution (`get_attributes`)
   ---------------------------------------------------------------------- -/

/-- The accumulation loop of `get_attributes` (archiver_tool.py lines
60-78): for each search string the backend search result is appended to
the accumulator with `attributes += json.loads(search_resp.text)`.  The
backend is modelled by the environment `env`, mapping a search pattern to
the list of matched attribute names it returns.  (The source also wraps a
single bare string into a one-element list; we model the list form.) -/
def get_attributes_loop (env : Str → List Str) : List Str → List Str → List Str
  | attributes, [] => attributes
  | attributes, sig :: rest => get_attributes_loop env (attributes ++ env sig) rest

/-- `get_attributes(search_strs)`: run the accumulation loop from the
empty accumulator. -/
def get_attributes (env : Str → List Str) (search_strs : List Str) : List Str :=
  get_attributes_loop env [] search_strs

/-- The loop prepends its accumulator to the concatenation of all
per-pattern results. -/
theorem get_attributes_loop_eq (env : Str → List Str) :
    ∀ (search_strs : List Str) (attributes : List Str),
      get_attributes_loop env attributes search_strs =
        attributes ++ (search_strs.map env).flatten := by
  intro search_strs
  induction search_strs with
  | nil => intro attributes; simp [get_attributes_loop]
  | cons sig rest ih =>
      intro attributes
      simp only [get_attributes_loop, ih, List.map_cons, List.flatten_cons, List.append_assoc]

/-- C7.  Resolving a list of input patterns returns the concatenation of
each pattern's matches in pattern-input order, and duplicates appearing
under more than one pattern are not removed: the multiplicity of every
identifier in the output is the sum of its per-pattern multiplicities. -/
theorem get_attributes_concat_no_dedup (env : Str → List Str) (patterns : List Str) :
    get_attributes env patterns = (patterns.map env).flatten ∧
    ∀ x : Str, (get_attributes env patterns).count x =
      ((patterns.map (fun p => (env p).count x)).sum) := by
  constructor
  · rw [get_attributes, get_attributes_loop_eq]
    simp
  · intro x
    rw [get_attributes, get_attributes_loop_eq]
    simp only [List.nil_append]
    induction patterns with
    | nil => simp
    | cons p rest ih => simp [List.count_append, ih]

/- ----------------------------------------------------------------------
   archiver_tool.py : `do_request` (the fan-out / fan-in loop)
   ---------------------------------------------------------------------- -/

/-- The fan-in loop of `do_request` (archiver_tool.py lines 92-102): the
responses are awaited strictly in submission order and appended to
`responses`; when an await raises (the underlying `requests.post` call
threw, e.g. a connection error) the exception propagates out of
`do_request` and the remaining responses are never collected.  A fetch
that merely returns a non-success HTTP response is an ordinary `ok`
value here — `requests.post` does not raise on status codes. -/
def awaitAll {ε ρ : Type} : List (Except ε ρ) → Except ε (List ρ)
  | [] => Except.ok []
  | f :: fs =>
    match f with
    | Except.ok r =>
        match awaitAll fs with
        | Except.ok rs => Except.ok (r :: rs)
        | Except.error e => Except.error e
    | Except.error e => Except.error e

/-- `do_request(start, end, signals, interval)` (archiver_tool.py lines
80-103): one fetch task is created per signal, in input order, and the
results are awaited in that same order.  The fetch outcome function
absorbs the fixed start/end/interval payload construction. -/
def do_request {σ ε ρ : Type} (fetch : σ → Except ε ρ) (signals : List σ) :
    Except ε (List ρ) :=
  awaitAll (signals.map fetch)

/-- A concrete fetch environment in which the task for signal 0 raises
and every other task succeeds. -/
def exFetch : Nat → Except Str Nat :=
  fun n => if n = 0 then Except.error ('b' :: 'o' :: 'o' :: 'm' :: []) else Except.ok n

/-- C2 counterexample.  One failing fetch task DOES prevent other tasks'
results from appearing: with two signals where the first task raises and
the second succeeds, `do_request` returns the exception and the second
task's (successful) result appears nowhere in the output. -/
theorem do_request_exception_counterexample :
    exFetch 1 = Except.ok 1 ∧
    do_request exFetch [0, 1] = Except.error ('b' :: 'o' :: 'o' :: 'm' :: []) := by
  exact ⟨rfl, rfl⟩

/-- C2 as amended.  Whenever no fetch task raises an exception —
including tasks whose HTTP response carries a failure status, which are
ordinary values — `do_request` returns exactly one result per input
signal, position i of the output corresponding to signal i of the input,
independent of completion order (results are collected by submission
index).  A task that raises, however, aborts the whole batch. -/
theorem do_request_order_amended {σ ε ρ : Type} (fetch : σ → Except ε ρ)
    (signals : List σ) (h : ∀ s ∈ signals, ∃ r, fetch s = Except.ok r) :
    ∃ rs, do_request fetch signals = Except.ok rs ∧
      rs.length = signals.length ∧
      List.Forall₂ (fun s r => fetch s = Except.ok r) signals rs := by
  induction signals with
  | nil => exact ⟨[], rfl, rfl, List.Forall₂.nil⟩
  | cons s rest ih =>
      obtain ⟨r, hr⟩ := h s (List.mem_cons_self _ _)
      obtain ⟨rs, hrs, hlen, hfa⟩ := ih (fun x hx => h x (List.mem_cons_of_mem _ hx))
      refine ⟨r :: rs, ?_, by simp [hlen], List.Forall₂.cons hr hfa⟩
      simp only [do_request, List.map_cons, awaitAll, hr]
      have : awaitAll (rest.map fetch) = Except.ok rs := hrs
      rw [this]

/-- Witness for the amended C2 at a concrete two-signal fetch. -/
theorem do_request_order_amended_witness :
    do_request (fun n => (Except.ok (n + 1) : Except Unit Nat)) [3, 4] =
      Except.ok [4, 5] := by
  obtain ⟨rs, h1, -, hfa⟩ :=
    do_request_order_amended (fun n => (Except.ok (n + 1) : Except Unit Nat)) [3, 4]
      (fun s _ => ⟨s + 1, rfl⟩)
  rcases hfa with _ | ⟨ha, hfa⟩
  rcases hfa with _ | ⟨hb, hfa⟩
  rcases hfa
  rw [h1]
  cases ha
  cases hb
  rfl

/- ----------------------------------------------------------------------
   archiver_tool.py : `query` (single-signal mode) and `__main__`
   (multi-signal mode) cardinality behaviour
   ---------------------------------------------------------------------- -/

/-- The two `ValueError`s raised by `query` (archiver_tool.py lines
115-118), carrying the same payloads as the source. -/
inductive QueryError where
  | noMatch : List Str → QueryError
  | multipleMatch : List Str → QueryError
deriving DecidableEq, Repr

/-- `sync_do_request` (archiver_tool.py lines 105-111): a plain
sequential loop appending one response per signal.  The fetch function
absorbs the fixed payload construction. -/
def sync_do_request {ρ : Type} (post : Str → ρ) (signals : List Str) : List ρ :=
  signals.foldl (fun responses sig => responses ++ [post sig]) []

/-- The resolution-and-retrieval prefix of `query` (archiver_tool.py
lines 113-119): resolve the patterns, fail with `NoMatch` on zero
matches and `MultipleMatch` on more than one, and only otherwise issue
the retrieval.  (The subsequent body-parsing of the single response is
modelled separately for the round-trip claim.) -/
def query {ρ : Type} (env : Str → List Str) (post : Str → ρ) (signals : List Str) :
    Except QueryError (List ρ) :=
  let attrs := get_attributes env signals
  if attrs.length = 0 then Except.error (QueryError.noMatch signals)
  else if ¬ attrs.length = 1 then Except.error (QueryError.multipleMatch attrs)
  else Except.ok (sync_do_request post attrs)

/-- Multi-signal mode (`__main__`, archiver_tool.py lines 210-222): the
resolved attributes are fetched with `do_request` and one output file is
written per response (`for i, resp in enumerate(response)`), so the
number of files equals the number of responses. -/
def multi_mode_file_count {ε ρ : Type} (gfetch : Str → Except ε ρ)
    (env : Str → List Str) (patterns : List Str) : Except ε Nat :=
  match do_request gfetch (get_attributes env patterns) with
  | Except.ok response => Except.ok response.length
  | Except.error e => Except.error e

/-- When every pattern matches nothing, resolution returns the empty
list. -/
theorem get_attributes_empty (env : Str → List Str) (patterns : List Str)
    (h : ∀ p ∈ patterns, env p = []) : get_attributes env patterns = [] := by
  rw [get_attributes, get_attributes_loop_eq, List.nil_append]
  induction patterns with
  | nil => simp
  | cons p rest ih =>
      simp only [List.map_cons, List.flatten_cons, h p (List.mem_cons_self _ _),
        List.nil_append]
      exact ih (fun q hq => h q (List.mem_cons_of_mem _ hq))

/-- C3.  In single-signal mode, zero pattern matches fail with the
no-match error and more than one match fails with the multiple-match
error, so retrieval proceeds exactly when one identifier is resolved; in
multi-signal mode a pattern set matching zero signals yields an empty
response list and zero output files rather than an error. -/
theorem query_cardinality_gate {ε ρ : Type} (env : Str → List Str) (post : Str → ρ)
    (gfetch : Str → Except ε ρ) (signals patterns : List Str) :
    (get_attributes env signals = [] →
      query env post signals = Except.error (QueryError.noMatch signals)) ∧
    (1 < (get_attributes env signals).length →
      query env post signals =
        Except.error (QueryError.multipleMatch (get_attributes env signals))) ∧
    ((get_attributes env signals).length = 1 →
      query env post signals = Except.ok (sync_do_request post (get_attributes env signals))) ∧
    ((∀ p ∈ patterns, env p = []) →
      do_request gfetch (get_attributes env patterns) = Except.ok [] ∧
      multi_mode_file_count gfetch env patterns = Except.ok 0) := by
  refine ⟨?_, ?_, ?_, ?_⟩
  · intro h
    simp [query, h]
  · intro h
    simp only [query]
    rw [if_neg (by omega), if_pos (by omega)]
  · intro h
    simp only [query]
    rw [if_neg (by omega), if_neg (show ¬¬(get_attributes env signals).length = 1 by omega)]
  · intro h
    have hempty := get_attributes_empty env patterns h
    constructor
    · rw [hempty]
      rfl
    · unfold multi_mode_file_count
      rw [hempty]
      rfl

/-- Witness for C3: a backend in which one pattern matches nothing and
another matches exactly one attribute. -/
theorem query_cardinality_gate_witness :
    query (fun _ => ([] : List Str)) (fun s => s) [('p' :: [])] =
      Except.error (QueryError.noMatch [('p' :: [])]) ∧
    multi_mode_file_count (fun s => (Except.ok s : Except Unit Str))
      (fun _ => ([] : List Str)) [('p' :: [])] = Except.ok 0 := by
  refine ⟨?_, ?_⟩
  · exact (query_cardinality_gate (fun _ => ([] : List Str)) (fun s => s)
      (fun s => (Except.ok s : Except Unit Str)) [('p' :: [])] [('p' :: [])]).1 rfl
  · exact ((query_cardinality_gate (fun _ => ([] : List Str)) (fun s => s)
      (fun s => (Except.ok s : Except Unit Str)) [('p' :: [])] [('p' :: [])]).2.2.2
      (fun p _ => rfl)).2

/- ----------------------------------------------------------------------
   Character and string helpers (Python str semantics)
   ---------------------------------------------------------------------- -/

/-- The newline character, the separator of the output format. -/
def nlChar : Char := '\n'

/-- Decimal digit to character, as Python number formatting emits it. -/
def digitChar : Nat → Char
  | 0 => '0'
  | 1 => '1'
  | 2 => '2'
  | 3 => '3'
  | 4 => '4'
  | 5 => '5'
  | 6 => '6'
  | 7 => '7'
  | 8 => '8'
  | _ => '9'

/-- Character to decimal digit value. -/
def charDigit (c : Char) : Nat := c.toNat - 48

/-- All characters of the string are decimal digits. -/
def allDigits (s : Str) : Bool := s.all Char.isDigit

/-- Big-endian decimal rendering of a natural number, with explicit fuel
(the number itself always suffices); renders the empty string for 0, so
callers pad or special-case as Python does. -/
def natToCharsAux : Nat → Nat → Str → Str
  | 0, _, acc => acc
  | f + 1, n, acc =>
      if n = 0 then acc else natToCharsAux f (n / 10) (digitChar (n % 10) :: acc)

/-- Digits of a natural number (empty for 0). -/
def natToChars (n : Nat) : Str := natToCharsAux n n []

/-- Python `str` of a nonnegative integer: 0 renders as a single digit. -/
def pyNatStr (n : Nat) : Str := if n = 0 then ['0'] else natToChars n

/-- Decimal value of a digit string (the numeric part of `int`/`float`
parsing; callers check digit-ness separately). -/
def charsToNat (s : Str) : Nat := s.foldl (fun acc c => 10 * acc + charDigit c) 0

/-- Left zero-padding to a fixed width, as the `%02d`-style strftime
fields produce. -/
def padZeros (w : Nat) (s : Str) : Str := List.replicate (w - s.length) '0' ++ s

/-- Python `str.split(sep)` for a single-character separator: keeps empty
fields, never returns an empty list. -/
def splitOnCh (sep : Char) : Str → List Str
  | [] => [[]]
  | c :: s =>
    if c = sep then [] :: splitOnCh sep s
    else
      match splitOnCh sep s with
      | [] => [[c]]
      | l :: ls => (c :: l) :: ls

/-- Python `sep.join(...)` for a single-character separator. -/
def joinSep (sep : Char) : List Str → Str
  | [] => []
  | [l] => l
  | l :: ls => l ++ sep :: joinSep sep ls

/-- Python whitespace, as split on by `str.split()` with no argument. -/
def isSpaceCh (c : Char) : Bool :=
  decide (c = ' ') || decide (c = '\t') || decide (c = '\n') || decide (c = '\r') ||
  decide (c = '\x0b') || decide (c = '\x0c')

/-- Python `str.split()` (no argument): split on runs of whitespace,
discarding empty fields. -/
def splitWs : Str → List Str
  | [] => []
  | [c] => if isSpaceCh c then [] else [[c]]
  | c :: d :: s =>
    if isSpaceCh c then splitWs (d :: s)
    else
      if isSpaceCh d then [c] :: splitWs (d :: s)
      else
        match splitWs (d :: s) with
        | [] => [[c]]
        | t :: ts => (c :: t) :: ts

/-- Test whether `pat` begins the string `s`. -/
def leadsWith : Str → Str → Bool
  | [], _ => true
  | _ :: _, [] => false
  | p :: ps, c :: cs => if p = c then leadsWith ps cs else false

/-- Test whether `pat` occurs as a contiguous substring of `s`. -/
def hasSub (pat : Str) : Str → Bool
  | [] => leadsWith pat []
  | c :: s => leadsWith pat (c :: s) || hasSub pat s

/-- Python `str.replace(pat, rep)` for nonempty `pat`: scan left to
right, replacing each leftmost non-overlapping occurrence. -/
def pyReplace (pat rep : Str) (s : Str) : Str :=
  match s with
  | [] => []
  | c :: t =>
    if h : 0 < pat.length ∧ leadsWith pat (c :: t) = true then
      rep ++ pyReplace pat rep ((c :: t).drop pat.length)
    else
      c :: pyReplace pat rep t
termination_by s.length
decreasing_by
  · simp only [List.length_drop, List.length_cons]
    omega
  · simp only [List.length_cons]
    omega

/- ----------------------------------------------------------------------
   Digit and number rendering lemmas
   ---------------------------------------------------------------------- -/

/-- Digit characters decode back to their value. -/
theorem charDigit_digitChar (d : Nat) (h : d < 10) : charDigit (digitChar d) = d := by
  interval_cases d <;> rfl

/-- Digit characters are digits. -/
theorem digitChar_isDigit (d : Nat) (h : d < 10) : (digitChar d).isDigit = true := by
  interval_cases d <;> decide

/-- The fuelled renderer agrees with the little-endian digit expansion. -/
theorem natToCharsAux_eq :
    ∀ (fuel n : Nat) (acc : Str), n ≤ fuel →
      natToCharsAux fuel n acc = ((Nat.digits 10 n).map digitChar).reverse ++ acc := by
  intro fuel
  induction fuel with
  | zero =>
      intro n acc h
      have hn : n = 0 := by omega
      subst hn
      simp [natToCharsAux]
  | succ f ih =>
      intro n acc h
      by_cases hn : n = 0
      · subst hn
        simp [natToCharsAux]
      · simp only [natToCharsAux]
        rw [if_neg hn]
        rw [ih (n / 10) _ (by omega)]
        rw [Nat.digits_def' (by norm_num : 1 < 10) (Nat.pos_of_ne_zero hn)]
        simp [List.reverse_cons, List.append_assoc]

/-- Big-endian decimal rendering as mapped digits. -/
theorem natToChars_eq (n : Nat) :
    natToChars n = ((Nat.digits 10 n).map digitChar).reverse := by
  rw [natToChars, natToCharsAux_eq n n [] (le_refl n), List.append_nil]

/-- Every character of a rendered number is a digit. -/
theorem natToChars_allDigits (n : Nat) : ∀ c ∈ natToChars n, c.isDigit = true := by
  intro c hc
  rw [natToChars_eq, List.mem_reverse] at hc
  rcases List.mem_map.mp hc with ⟨d, hd, rfl⟩
  exact digitChar_isDigit d (Nat.digits_lt_base (by norm_num) hd)

/-- Folding the decimal accumulator over reversed digits recovers the
positional value. -/
theorem charsToNat_aux (ds : List Nat) (hds : ∀ d ∈ ds, d < 10) :
    ∀ acc : Nat,
      List.foldl (fun a c => 10 * a + charDigit c) acc ((ds.map digitChar).reverse)
        = acc * 10 ^ ds.length + Nat.ofDigits 10 ds := by
  induction ds with
  | nil =>
      intro acc
      simp [Nat.ofDigits]
  | cons d ds ih =>
      intro acc
      simp only [List.map_cons, List.reverse_cons, List.foldl_append, List.foldl_cons,
        List.foldl_nil]
      rw [ih (fun x hx => hds x (List.mem_cons_of_mem _ hx)) acc]
      rw [charDigit_digitChar d (hds d (List.mem_cons_self _ _))]
      rw [Nat.ofDigits_cons]
      simp only [List.length_cons, pow_succ]
      ring

/-- Parsing a rendered number recovers it. -/
theorem charsToNat_natToChars (n : Nat) : charsToNat (natToChars n) = n := by
  rw [natToChars_eq, charsToNat]
  rw [charsToNat_aux (Nat.digits 10 n) (fun d hd => Nat.digits_lt_base (by norm_num) hd) 0]
  simp [Nat.ofDigits_digits]

/-- Leading zeros contribute nothing to the parsed value. -/
theorem foldl_zeros (k : Nat) :
    List.foldl (fun a c => 10 * a + charDigit c) 0 (List.replicate k '0') = 0 := by
  induction k with
  | zero => rfl
  | succ k ih =>
      rw [List.replicate_succ, List.foldl_cons]
      have h0 : 10 * 0 + charDigit '0' = 0 := rfl
      rw [h0, ih]

/-- Zero-padding does not change the parsed value. -/
theorem charsToNat_padZeros (w : Nat) (s : Str) :
    charsToNat (padZeros w s) = charsToNat s := by
  rw [padZeros, charsToNat, charsToNat, List.foldl_append, foldl_zeros]

/-- Zero-padding preserves digit-ness. -/
theorem padZeros_allDigits (w : Nat) (s : Str) (h : ∀ c ∈ s, c.isDigit = true) :
    ∀ c ∈ padZeros w s, c.isDigit = true := by
  intro c hc
  rcases List.mem_append.mp hc with hc | hc
  · rw [List.eq_of_mem_replicate hc]
    decide
  · exact h c hc

/-- A padded field of positive width is nonempty. -/
theorem padZeros_ne_nil (w : Nat) (s : Str) (hw : 0 < w) : padZeros w s ≠ [] := by
  have hlen : 0 < (padZeros w s).length := by
    simp only [padZeros, List.length_append, List.length_replicate]
    omega
  intro h
  rw [h] at hlen
  simp at hlen

/-- Digit characters are none of the separators used by the output
format, nor whitespace. -/
theorem isDigit_not_special (c : Char) (h : c.isDigit = true) :
    c ≠ '-' ∧ c ≠ '_' ∧ c ≠ ':' ∧ c ≠ '.' ∧ isSpaceCh c = false := by
  refine ⟨?_, ?_, ?_, ?_, ?_⟩
  · intro hc; subst hc; exact absurd h (by decide)
  · intro hc; subst hc; exact absurd h (by decide)
  · intro hc; subst hc; exact absurd h (by decide)
  · intro hc; subst hc; exact absurd h (by decide)
  · cases hsp : isSpaceCh c
    · rfl
    · exfalso
      simp only [isSpaceCh, Bool.or_eq_true, decide_eq_true_eq] at hsp
      rcases hsp with ((((rfl | rfl) | rfl) | rfl) | rfl) | rfl <;> exact absurd h (by decide)

/-- A number below `10^k` renders in at most `k` digits. -/
theorem natToChars_length_le (n k : Nat) (h : n < 10 ^ k) : (natToChars n).length ≤ k := by
  rw [natToChars_eq]
  simp only [List.length_reverse, List.length_map]
  by_cases hn : n = 0
  · subst hn
    simp
  · rw [Nat.digits_len 10 n (by norm_num) hn]
    have := (Nat.lt_pow_iff_log_lt (by norm_num) hn).mp h
    omega

/-- Length of a zero-padded field. -/
theorem padZeros_length (w : Nat) (s : Str) :
    (padZeros w s).length = (w - s.length) + s.length := by
  simp [padZeros]

/- ----------------------------------------------------------------------
   Splitting and joining lemmas
   ---------------------------------------------------------------------- -/

/-- Splitting a separator-free string yields the single field. -/
theorem splitOnCh_no_sep (sep : Char) :
    ∀ s : Str, sep ∉ s → splitOnCh sep s = [s] := by
  intro s
  induction s with
  | nil => intro _; rfl
  | cons c s ih =>
      intro h
      have hc : ¬ c = sep := fun hc => h (hc ▸ List.mem_cons_self _ _)
      simp only [splitOnCh]
      rw [if_neg hc, ih (fun hm => h (List.mem_cons_of_mem _ hm))]

/-- Splitting consumes the leftmost separator first. -/
theorem splitOnCh_append (sep : Char) :
    ∀ (a b : Str), sep ∉ a →
      splitOnCh sep (a ++ sep :: b) = a :: splitOnCh sep b := by
  intro a
  induction a with
  | nil =>
      intro b _
      simp [splitOnCh]
  | cons c a ih =>
      intro b h
      have hc : ¬ c = sep := fun hc => h (hc ▸ List.mem_cons_self _ _)
      have hstep : splitOnCh sep ((c :: a) ++ sep :: b) =
          match splitOnCh sep (a ++ sep :: b) with
          | [] => [[c]]
          | l :: ls => (c :: l) :: ls := by
        rw [List.cons_append]
        simp only [splitOnCh]
        rw [if_neg hc]
      rw [hstep, ih b (fun hm => h (List.mem_cons_of_mem _ hm))]

/-- Joining separator-free lines and appending a trailing separator, then
splitting, recovers the lines plus one empty field — exactly the shape
`('\n'.join(output) + '\n').split('\n')` takes in the source. -/
theorem splitOnCh_joinSep (sep : Char) :
    ∀ ls : List Str, ls ≠ [] → (∀ l ∈ ls, sep ∉ l) →
      splitOnCh sep (joinSep sep ls ++ [sep]) = ls ++ [[]] := by
  intro ls
  induction ls with
  | nil => intro h; exact absurd rfl h
  | cons l rest ih =>
      intro _ h
      cases rest with
      | nil =>
          have : joinSep sep [l] ++ [sep] = l ++ sep :: [] := rfl
          rw [this, splitOnCh_append sep l [] (h l (List.mem_cons_self _ _))]
          rfl
      | cons l2 rest2 =>
          have hjoin : joinSep sep (l :: l2 :: rest2) ++ [sep] =
              l ++ sep :: (joinSep sep (l2 :: rest2) ++ [sep]) := by
            simp [joinSep, List.append_assoc]
          rw [hjoin, splitOnCh_append sep l _ (h l (List.mem_cons_self _ _))]
          rw [ih (by simp) (fun x hx => h x (List.mem_cons_of_mem _ hx))]
          rfl

/-- `str.split()` of a whitespace-free nonempty string is that one token. -/
theorem splitWs_single :
    ∀ b : Str, b ≠ [] → (∀ c ∈ b, isSpaceCh c = false) → splitWs b = [b] := by
  intro b
  induction b with
  | nil => intro h; exact absurd rfl h
  | cons c rest ih =>
      intro _ h
      cases rest with
      | nil =>
          simp only [splitWs]
          rw [if_neg (by simp [h c (List.mem_cons_self _ _)])]
      | cons d s =>
          simp only [splitWs]
          rw [if_neg (by simp [h c (List.mem_cons_self _ _)]),
            if_neg (by simp [h d (List.mem_cons_of_mem _ (List.mem_cons_self _ _))])]
          rw [ih (by simp) (fun x hx => h x (List.mem_cons_of_mem _ hx))]

/-- A leading space is skipped by `str.split()`. -/
theorem splitWs_space (b : Str) : splitWs (' ' :: b) = splitWs b := by
  cases b with
  | nil => rfl
  | cons c s =>
      simp only [splitWs]
      rw [if_pos (by decide)]

/-- `str.split()` cuts a whitespace-free token at the following space. -/
theorem splitWs_token :
    ∀ a : Str, a ≠ [] → (∀ c ∈ a, isSpaceCh c = false) →
      ∀ b : Str, splitWs (a ++ ' ' :: b) = a :: splitWs b := by
  intro a
  induction a with
  | nil => intro h; exact absurd rfl h
  | cons c rest ih =>
      intro _ h b
      cases rest with
      | nil =>
          have hstep : splitWs ((c :: []) ++ ' ' :: b) = [c] :: splitWs (' ' :: b) := by
            rw [List.cons_append, List.nil_append]
            simp only [splitWs]
            rw [if_neg (by simp [h c (List.mem_cons_self _ _)]), if_pos (by decide)]
          rw [hstep, splitWs_space]
      | cons d s =>
          have hih := ih (by simp) (fun x hx => h x (List.mem_cons_of_mem _ hx)) b
          rw [List.cons_append] at hih
          have hstep : splitWs ((c :: d :: s) ++ ' ' :: b) =
              match splitWs (d :: (s ++ ' ' :: b)) with
              | [] => [[c]]
              | t :: ts => (c :: t) :: ts := by
            rw [List.cons_append, List.cons_append]
            simp only [splitWs]
            rw [if_neg (by simp [h c (List.mem_cons_self _ _)]),
              if_neg (by simp [h d (List.mem_cons_of_mem _ (List.mem_cons_self _ _))])]
          rw [hstep, hih]

/- ----------------------------------------------------------------------
   Timestamps: `strftime` / `strptime` with format %Y-%m-%d_%H:%M:%S.%f
   ---------------------------------------------------------------------- -/

/-- A Python `datetime` value as the formatter sees it (the result of
`datetime.fromtimestamp(ms / 1000)`, archiver_tool.py line 55): the
seven calendar/time fields, microsecond resolution. -/
structure Datetime where
  year : Nat
  month : Nat
  day : Nat
  hour : Nat
  minute : Nat
  second : Nat
  microsecond : Nat
deriving DecidableEq, Repr

/-- `dt.strftime("%Y-%m-%d_%H:%M:%S.%f")` (archiver_tool.py line 56,
lowlevel_tool.py line 184): zero-padded fixed-width fields joined by the
literal separators of the format string. -/
def strftimeTs (t : Datetime) : Str :=
  padZeros 4 (natToChars t.year) ++ '-' :: padZeros 2 (natToChars t.month) ++
  '-' :: padZeros 2 (natToChars t.day) ++ '_' :: padZeros 2 (natToChars t.hour) ++
  ':' :: padZeros 2 (natToChars t.minute) ++ ':' :: padZeros 2 (natToChars t.second) ++
  '.' :: padZeros 6 (natToChars t.microsecond)

/-- `datetime.strptime(s, "%Y-%m-%d_%H:%M:%S.%f")` (archiver_tool.py
line 128): cut the string at the format's literal separators, require
every field to be a digit run of the allowed width, validate the
calendar ranges, and right-pad the %f digits to microseconds.  Returns
`none` where the source raises `ValueError`. -/
def strptimeTs (s : Str) : Option Datetime :=
  match splitOnCh '_' s with
  | [datePart, timePart] =>
    match splitOnCh '-' datePart with
    | [ys, mos, ds] =>
      match splitOnCh ':' timePart with
      | [hs, mis, rest] =>
        match splitOnCh '.' rest with
        | [ss, fs] =>
          if allDigits ys = true ∧ allDigits mos = true ∧ allDigits ds = true ∧
             allDigits hs = true ∧ allDigits mis = true ∧ allDigits ss = true ∧
             allDigits fs = true ∧ ys ≠ [] ∧ mos ≠ [] ∧ ds ≠ [] ∧ hs ≠ [] ∧
             mis ≠ [] ∧ ss ≠ [] ∧ fs ≠ [] ∧ ys.length ≤ 4 ∧ fs.length ≤ 6 ∧
             1 ≤ charsToNat mos ∧ charsToNat mos ≤ 12 ∧
             1 ≤ charsToNat ds ∧ charsToNat ds ≤ 31 ∧
             charsToNat hs ≤ 23 ∧ charsToNat mis ≤ 59 ∧ charsToNat ss ≤ 61 then
            some ⟨charsToNat ys, charsToNat mos, charsToNat ds, charsToNat hs,
                  charsToNat mis, charsToNat ss, charsToNat fs * 10 ^ (6 - fs.length)⟩
          else none
        | _ => none
      | _ => none
    | _ => none
  | _ => none

/-- Calendar validity of a datetime, as the archive's data satisfies it
(four-digit year, real month/day/time ranges, microsecond resolution). -/
def validDT (t : Datetime) : Prop :=
  1000 ≤ t.year ∧ t.year ≤ 9999 ∧ 1 ≤ t.month ∧ t.month ≤ 12 ∧
  1 ≤ t.day ∧ t.day ≤ 31 ∧ t.hour ≤ 23 ∧ t.minute ≤ 59 ∧ t.second ≤ 59 ∧
  t.microsecond < 1000000

instance (t : Datetime) : Decidable (validDT t) :=
  inferInstanceAs (Decidable (_ ∧ _))

/-- A character that is not a digit is not in a digit-only string. -/
theorem notMem_digits (c : Char) (s : Str) (hdig : ∀ x ∈ s, x.isDigit = true)
    (hc : c.isDigit = false) : c ∉ s := by
  intro hm
  rw [hdig c hm] at hc
  cases hc

/-- Absence from a `field ++ sep :: field` block. -/
theorem notMem_sep_block (c sep2 : Char) (a b : Str) (ha : c ∉ a) (hb : c ∉ b)
    (hcs : ¬ c = sep2) : c ∉ a ++ sep2 :: b := by
  intro hm
  rcases List.mem_append.mp hm with hm | hm
  · exact ha hm
  · rcases List.mem_cons.mp hm with heq | hm
    · exact hcs heq
    · exact hb hm

/-- Formatting a valid datetime with the source's format string and
parsing it back recovers the datetime exactly (microsecond precision). -/
theorem strptime_strftime (t : Datetime) (hv : validDT t) :
    strptimeTs (strftimeTs t) = some t := by
  obtain ⟨hv1, hv2, hv3, hv4, hv5, hv6, hv7, hv8, hv9, hv10⟩ := hv
  have hYd := padZeros_allDigits 4 _ (natToChars_allDigits t.year)
  have hMd := padZeros_allDigits 2 _ (natToChars_allDigits t.month)
  have hDd := padZeros_allDigits 2 _ (natToChars_allDigits t.day)
  have hHd := padZeros_allDigits 2 _ (natToChars_allDigits t.hour)
  have hMid := padZeros_allDigits 2 _ (natToChars_allDigits t.minute)
  have hSd := padZeros_allDigits 2 _ (natToChars_allDigits t.second)
  have hFd := padZeros_allDigits 6 _ (natToChars_allDigits t.microsecond)
  have hshape : strftimeTs t =
      (padZeros 4 (natToChars t.year) ++ '-' :: (padZeros 2 (natToChars t.month) ++
        '-' :: padZeros 2 (natToChars t.day))) ++
      '_' :: (padZeros 2 (natToChars t.hour) ++ ':' :: (padZeros 2 (natToChars t.minute) ++
        ':' :: (padZeros 2 (natToChars t.second) ++
          '.' :: padZeros 6 (natToChars t.microsecond)))) := by
    simp [strftimeTs, List.append_assoc]
  have hsp1 : splitOnCh '_' (strftimeTs t) =
      [padZeros 4 (natToChars t.year) ++ '-' :: (padZeros 2 (natToChars t.month) ++
        '-' :: padZeros 2 (natToChars t.day)),
       padZeros 2 (natToChars t.hour) ++ ':' :: (padZeros 2 (natToChars t.minute) ++
        ':' :: (padZeros 2 (natToChars t.second) ++
          '.' :: padZeros 6 (natToChars t.microsecond)))] := by
    rw [hshape, splitOnCh_append '_' _ _
      (notMem_sep_block '_' '-' _ _ (notMem_digits _ _ hYd (by decide))
        (notMem_sep_block '_' '-' _ _ (notMem_digits _ _ hMd (by decide))
          (notMem_digits _ _ hDd (by decide)) (by decide)) (by decide))]
    rw [splitOnCh_no_sep '_' _
      (notMem_sep_block '_' ':' _ _ (notMem_digits _ _ hHd (by decide))
        (notMem_sep_block '_' ':' _ _ (notMem_digits _ _ hMid (by decide))
          (notMem_sep_block '_' '.' _ _ (notMem_digits _ _ hSd (by decide))
            (notMem_digits _ _ hFd (by decide)) (by decide)) (by decide)) (by decide))]
  have hsp2 : splitOnCh '-' (padZeros 4 (natToChars t.year) ++
      '-' :: (padZeros 2 (natToChars t.month) ++ '-' :: padZeros 2 (natToChars t.day))) =
      [padZeros 4 (natToChars t.year), padZeros 2 (natToChars t.month),
       padZeros 2 (natToChars t.day)] := by
    rw [splitOnCh_append '-' _ _ (notMem_digits _ _ hYd (by decide)),
      splitOnCh_append '-' _ _ (notMem_digits _ _ hMd (by decide)),
      splitOnCh_no_sep '-' _ (notMem_digits _ _ hDd (by decide))]
  have hsp3 : splitOnCh ':' (padZeros 2 (natToChars t.hour) ++
      ':' :: (padZeros 2 (natToChars t.minute) ++
        ':' :: (padZeros 2 (natToChars t.second) ++
          '.' :: padZeros 6 (natToChars t.microsecond)))) =
      [padZeros 2 (natToChars t.hour), padZeros 2 (natToChars t.minute),
       padZeros 2 (natToChars t.second) ++ '.' :: padZeros 6 (natToChars t.microsecond)] := by
    rw [splitOnCh_append ':' _ _ (notMem_digits _ _ hHd (by decide)),
      splitOnCh_append ':' _ _ (notMem_digits _ _ hMid (by decide)),
      splitOnCh_no_sep ':' _
        (notMem_sep_block ':' '.' _ _ (notMem_digits _ _ hSd (by decide))
          (notMem_digits _ _ hFd (by decide)) (by decide))]
  have hsp4 : splitOnCh '.' (padZeros 2 (natToChars t.second) ++
      '.' :: padZeros 6 (natToChars t.microsecond)) =
      [padZeros 2 (natToChars t.second), padZeros 6 (natToChars t.microsecond)] := by
    rw [splitOnCh_append '.' _ _ (notMem_digits _ _ hSd (by decide)),
      splitOnCh_no_sep '.' _ (notMem_digits _ _ hFd (by decide))]
  have hYv : charsToNat (padZeros 4 (natToChars t.year)) = t.year := by
    rw [charsToNat_padZeros, charsToNat_natToChars]
  have hMv : charsToNat (padZeros 2 (natToChars t.month)) = t.month := by
    rw [charsToNat_padZeros, charsToNat_natToChars]
  have hDv : charsToNat (padZeros 2 (natToChars t.day)) = t.day := by
    rw [charsToNat_padZeros, charsToNat_natToChars]
  have hHv : charsToNat (padZeros 2 (natToChars t.hour)) = t.hour := by
    rw [charsToNat_padZeros, charsToNat_natToChars]
  have hMiv : charsToNat (padZeros 2 (natToChars t.minute)) = t.minute := by
    rw [charsToNat_padZeros, charsToNat_natToChars]
  have hSv : charsToNat (padZeros 2 (natToChars t.second)) = t.second := by
    rw [charsToNat_padZeros, charsToNat_natToChars]
  have hFv : charsToNat (padZeros 6 (natToChars t.microsecond)) = t.microsecond := by
    rw [charsToNat_padZeros, charsToNat_natToChars]
  have hFlen : (padZeros 6 (natToChars t.microsecond)).length = 6 := by
    rw [padZeros_length]
    have := natToChars_length_le t.microsecond 6 (by omega)
    omega
  simp only [strptimeTs, hsp1, hsp2, hsp3, hsp4]
  rw [if_pos ⟨List.all_eq_true.mpr hYd, List.all_eq_true.mpr hMd, List.all_eq_true.mpr hDd,
    List.all_eq_true.mpr hHd, List.all_eq_true.mpr hMid, List.all_eq_true.mpr hSd,
    List.all_eq_true.mpr hFd,
    padZeros_ne_nil _ _ (by norm_num), padZeros_ne_nil _ _ (by norm_num),
    padZeros_ne_nil _ _ (by norm_num), padZeros_ne_nil _ _ (by norm_num),
    padZeros_ne_nil _ _ (by norm_num), padZeros_ne_nil _ _ (by norm_num),
    padZeros_ne_nil _ _ (by norm_num),
    by rw [padZeros_length]; have := natToChars_length_le t.year 4 (by omega); omega,
    by rw [hFlen],
    by rw [hMv]; omega, by rw [hMv]; omega,
    by rw [hDv]; omega, by rw [hDv]; omega,
    by rw [hHv]; omega, by rw [hMiv]; omega, by rw [hSv]; omega⟩]
  rw [hYv, hMv, hDv, hHv, hMiv, hSv, hFlen, hFv]
  simp

/- ----------------------------------------------------------------------
   Values: Python `str(float)` and `float(str)` round trip
   ---------------------------------------------------------------------- -/

/-- A backend value as the formatter prints it.  Python 3 guarantees
`float(str(x)) == x`; we model the value as its exact printed decimal
(sign, integer part, fraction digits), which captures that guarantee
without modelling binary floating point itself. -/
structure PyFloat where
  neg : Bool
  intPart : Nat
  frac : List Nat
deriving DecidableEq, Repr

/-- Python `str` of a float in positional notation: optional minus sign,
integer digits, a decimal point, then the fraction digits. -/
def pyFloatStr (v : PyFloat) : Str :=
  (if v.neg then ['-'] else []) ++ pyNatStr v.intPart ++ '.' :: v.frac.map digitChar

/-- The unsigned part of Python `float(...)` parsing restricted to
positional decimal notation: digits, at most one point, at least one
digit overall. -/
def parseFloatCore (s : Str) : Option (Nat × List Nat) :=
  match splitOnCh '.' s with
  | [a] => if allDigits a = true ∧ a ≠ [] then some (charsToNat a, []) else none
  | [a, b] =>
      if allDigits a = true ∧ allDigits b = true ∧ (a ≠ [] ∨ b ≠ []) then
        some (charsToNat a, b.map charDigit)
      else none
  | _ => none

/-- `float(split[1])` (archiver_tool.py line 127) on the strings this
program prints: an optional leading minus sign, then the unsigned
positional decimal.  Returns `none` where the source raises
`ValueError`. -/
def parseFloat (s : Str) : Option PyFloat :=
  match s with
  | [] => none
  | c :: rest =>
    if c = '-' then (parseFloatCore rest).map (fun p => ⟨true, p.1, p.2⟩)
    else (parseFloatCore (c :: rest)).map (fun p => ⟨false, p.1, p.2⟩)

/-- A well-formed printed float: at least one fraction digit (Python
`str(float)` always prints one) and digit values below ten. -/
def validFloat (v : PyFloat) : Prop := v.frac ≠ [] ∧ ∀ d ∈ v.frac, d < 10

instance (v : PyFloat) : Decidable (validFloat v) :=
  inferInstanceAs (Decidable (_ ∧ _))

/-- The rendered integer part: nonempty, all digits, parses back. -/
theorem pyNatStr_allDigits (n : Nat) : ∀ c ∈ pyNatStr n, c.isDigit = true := by
  intro c hc
  rw [pyNatStr] at hc
  by_cases hn : n = 0
  · subst hn
    rw [if_pos rfl] at hc
    rcases List.mem_singleton.mp hc with rfl
    decide
  · rw [if_neg hn] at hc
    exact natToChars_allDigits n c hc

/-- The rendered integer part is never empty. -/
theorem pyNatStr_ne_nil (n : Nat) : pyNatStr n ≠ [] := by
  rw [pyNatStr]
  by_cases hn : n = 0
  · subst hn
    simp
  · rw [if_neg hn]
    intro h
    have h2 := charsToNat_natToChars n
    rw [h] at h2
    exact hn h2.symm

/-- The rendered integer part parses back to its value. -/
theorem charsToNat_pyNatStr (n : Nat) : charsToNat (pyNatStr n) = n := by
  rw [pyNatStr]
  by_cases hn : n = 0
  · subst hn
    rfl
  · rw [if_neg hn, charsToNat_natToChars]

/-- Core float round trip on the unsigned printed form. -/
theorem parseFloatCore_roundtrip (ip : Nat) (frac : List Nat)
    (hfrac : frac ≠ []) (hdig : ∀ d ∈ frac, d < 10) :
    parseFloatCore (pyNatStr ip ++ '.' :: frac.map digitChar) = some (ip, frac) := by
  have hfd : ∀ c ∈ frac.map digitChar, c.isDigit = true := by
    intro c hc
    rcases List.mem_map.mp hc with ⟨d, hd, rfl⟩
    exact digitChar_isDigit d (hdig d hd)
  have hsp : splitOnCh '.' (pyNatStr ip ++ '.' :: frac.map digitChar) =
      [pyNatStr ip, frac.map digitChar] := by
    rw [splitOnCh_append '.' _ _ (notMem_digits _ _ (pyNatStr_allDigits ip) (by decide)),
      splitOnCh_no_sep '.' _ (notMem_digits _ _ hfd (by decide))]
  simp only [parseFloatCore, hsp]
  rw [if_pos ⟨List.all_eq_true.mpr (pyNatStr_allDigits ip), List.all_eq_true.mpr hfd,
    Or.inl (pyNatStr_ne_nil ip)⟩]
  rw [charsToNat_pyNatStr, List.map_map]
  have : frac.map (charDigit ∘ digitChar) = frac.map id :=
    List.map_congr_left (fun d hd => charDigit_digitChar d (hdig d hd))
  rw [this, List.map_id]

/-- Printing a well-formed float and parsing it back is the identity. -/
theorem parseFloat_pyFloatStr (v : PyFloat) (hv : validFloat v) :
    parseFloat (pyFloatStr v) = some v := by
  obtain ⟨hfrac, hdig⟩ := hv
  obtain ⟨c0, s0, hps⟩ : ∃ c0 s0, pyNatStr v.intPart = c0 :: s0 := by
    cases hh : pyNatStr v.intPart with
    | nil => exact absurd hh (pyNatStr_ne_nil _)
    | cons c0 s0 => exact ⟨c0, s0, rfl⟩
  have hc0 : c0.isDigit = true := pyNatStr_allDigits v.intPart c0 (by rw [hps]; simp)
  have hc0m : ¬ c0 = '-' := by
    intro h
    subst h
    exact absurd hc0 (by decide)
  cases hneg : v.neg with
  | true =>
      have hstr : pyFloatStr v = '-' :: (pyNatStr v.intPart ++ '.' :: v.frac.map digitChar) := by
        rw [pyFloatStr, hneg]
        rfl
      rw [hstr]
      simp only [parseFloat]
      rw [if_pos trivial, parseFloatCore_roundtrip v.intPart v.frac hfrac hdig]
      simp [Option.map, ← hneg]
  | false =>
      have hstr : pyFloatStr v = c0 :: (s0 ++ '.' :: v.frac.map digitChar) := by
        rw [pyFloatStr, hneg, hps]
        rfl
      rw [hstr]
      simp only [parseFloat]
      rw [if_neg hc0m]
      have hback : c0 :: (s0 ++ '.' :: v.frac.map digitChar) =
          pyNatStr v.intPart ++ '.' :: v.frac.map digitChar := by
        rw [hps]
        rfl
      rw [hback, parseFloatCore_roundtrip v.intPart v.frac hfrac hdig]
      simp [Option.map, ← hneg]

/-- Python `str` applied to a data-point value (archiver_tool.py line
57).  The spec's RawDataPoint value is numeric or null; JSON `null`
decodes to Python `None`, modelled as `none`.  A float prints as its
decimal, `None` prints as the four letters of the word None. -/
def pyValueStr : Option PyFloat → Str
  | some f => pyFloatStr f
  | none => 'N' :: 'o' :: 'n' :: 'e' :: []

/- ----------------------------------------------------------------------
   archiver_tool.py : `parse_response` and the header-building constants
   ---------------------------------------------------------------------- -/

/-- `CONTROLURL` (archiver_tool.py line 15). -/
def CONTROLURL : Str := "g-v-csdb-0.maxiv.lu.se:10000".toList

/-- The literal prefix of the first header line (archiver_tool.py
line 52). -/
def datasetPrefix : Str := "# DATASET= tango://".toList

/-- The literal prefix of the second header line (archiver_tool.py
line 53). -/
def snapshotPrefix : Str := "# SNAPSHOT_TIME= ".toList

/-- The decoded body of a successful query response,
`json.loads(resp.text)[0]`: the echoed target string and its data
points.  A source data point is a `[value, epoch_ms]` pair whose value
is numeric or null (`None` after decoding), hence `Option PyFloat`;
the formatter's conversion `datetime.fromtimestamp(vals[1] / 1000)`
(archiver_tool.py line 55) is injective on epoch milliseconds (datetime
carries microseconds), so we carry the converted `Datetime` in the
decoded pair. -/
structure RestData where
  target : Str
  datapoints : List (Option PyFloat × Datetime)

/-- A `requests` response as `parse_response` consumes it: the HTTP
status code, the raw body text, and — for the 200 case — the decoded
JSON payload. -/
structure HttpResp where
  status_code : Nat
  text : Str
  payload : RestData

/-- The `data` dictionary of `parse_response` (archiver_tool.py lines
42-48): on a non-success status the raw text becomes the target and the
data points are empty, otherwise the decoded payload is used. -/
def respData (resp : HttpResp) : RestData :=
  if ¬ resp.status_code = 200 then ⟨resp.text, []⟩ else resp.payload

/-- One body line, `'{} {}'.format(timestamp, vals[0])` (archiver_tool.py
lines 54-57): the formatted timestamp, one space, the value printed by
`str` — so a null value renders as the word None. -/
def formatLine (p : Option PyFloat × Datetime) : Str :=
  strftimeTs p.2 ++ ' ' :: pyValueStr p.1

/-- The `output` line list of `parse_response` (archiver_tool.py lines
49-57): the two quoted header lines — with the control-host single
slash doubled in the target — followed by one line per data point. -/
def outputLines (now : Str) (resp : HttpResp) : List Str :=
  ('"' :: (datasetPrefix ++ pyReplace (CONTROLURL ++ ['/']) (CONTROLURL ++ ['/', '/'])
      (respData resp).target ++ ['"'])) ::
  ('"' :: (snapshotPrefix ++ now ++ ['"'])) ::
  (respData resp).datapoints.map formatLine

/-- `parse_response(resp)` (archiver_tool.py lines 41-58):
`'\n'.join(output) + '\n'`.  The snapshot timestamp `datetime.now()` is
impure and passed in as `now`. -/
def parse_response (now : Str) (resp : HttpResp) : Str :=
  joinSep nlChar (outputLines now resp) ++ [nlChar]

/-- `parse_response(signame, resp)` of lowlevel_tool.py (lines 176-186):
same headers without the slash rewriting, body zipped from the time and
data lists. -/
def lowlevel_parse_response (signame now : Str) (timelist : List Datetime)
    (datalist : List PyFloat) : List Str :=
  ('"' :: (datasetPrefix ++ signame ++ ['"'])) ::
  ('"' :: (snapshotPrefix ++ now ++ ['"'])) ::
  (timelist.zip datalist).map (fun td => strftimeTs td.1 ++ ' ' :: pyFloatStr td.2)

/- ----------------------------------------------------------------------
   `str.replace` lemmas
   ---------------------------------------------------------------------- -/

/-- A string begins with itself. -/
theorem leadsWith_append : ∀ p s : Str, leadsWith p (p ++ s) = true := by
  intro p
  induction p with
  | nil => intro s; rfl
  | cons c p ih =>
      intro s
      simp only [List.cons_append, leadsWith, if_pos rfl]
      exact ih s

/-- Replacing a pattern that does not occur is the identity. -/
theorem pyReplace_no_occ (pat rep : Str) :
    ∀ s : Str, hasSub pat s = false → pyReplace pat rep s = s := by
  intro s
  induction s with
  | nil =>
      intro _
      rw [pyReplace]
  | cons c t ih =>
      intro h
      simp only [hasSub, Bool.or_eq_false_iff] at h
      rw [pyReplace]
      rw [dif_neg (fun hc => by rw [hc.2] at h; exact Bool.noConfusion h.1)]
      rw [ih h.2]

/-- Replacement fires on a leading occurrence of the pattern. -/
theorem pyReplace_leading (pat rep s : Str) (hp : 0 < pat.length) :
    pyReplace pat rep (pat ++ s) = rep ++ pyReplace pat rep s := by
  cases hpat : pat with
  | nil => rw [hpat] at hp; cases hp
  | cons p0 pr =>
      rw [← hpat]
      have hform : pat ++ s = p0 :: (pr ++ s) := by rw [hpat]; rfl
      rw [hform, pyReplace]
      rw [dif_pos ⟨by rw [hpat]; simp, by rw [← hform, leadsWith_append]⟩]
      congr 1
      rw [← hform, List.drop_left]

/- ----------------------------------------------------------------------
   C5: failed or empty responses still produce exactly the two headers
   ---------------------------------------------------------------------- -/

/-- C5.  On a failed response (non-success status) the REST formatter
returns exactly the two header lines — the first naming the failure via
the response text — with an empty body; the low-level formatter on an
empty result likewise returns just the two headers.  Both formatters
are total functions in this model: no input makes them throw. -/
theorem parse_response_failure_headers (now signame : Str) (resp : HttpResp)
    (h : ¬ resp.status_code = 200) :
    outputLines now resp =
      ['"' :: (datasetPrefix ++ pyReplace (CONTROLURL ++ ['/']) (CONTROLURL ++ ['/', '/'])
          resp.text ++ ['"']),
       '"' :: (snapshotPrefix ++ now ++ ['"'])] ∧
    (outputLines now resp).length = 2 ∧
    lowlevel_parse_response signame now [] [] =
      ['"' :: (datasetPrefix ++ signame ++ ['"']),
       '"' :: (snapshotPrefix ++ now ++ ['"'])] := by
  have hdata : respData resp = ⟨resp.text, []⟩ := by
    rw [respData, if_pos h]
  refine ⟨?_, ?_, rfl⟩
  · simp [outputLines, hdata]
  · simp [outputLines, hdata]

/-- Witness for C5 at a concrete status-500 response. -/
theorem parse_response_failure_headers_witness :
    (outputLines [] ⟨500, ['x'], ⟨[], []⟩⟩).length = 2 :=
  (parse_response_failure_headers [] ['s'] ⟨500, ['x'], ⟨[], []⟩⟩ (by decide)).2.1

/- ----------------------------------------------------------------------
   C10: the single slash after the control host is doubled in the header
   ---------------------------------------------------------------------- -/

/-- C10.  For a successful response whose target is the control-system
host followed by a single slash and the rest of the signal name (with no
further host occurrence), the formatter doubles that slash, so the first
output line is the quoted header naming `tango://<control-host>//<rest>`
rather than embedding the target verbatim. -/
theorem dataset_header_double_slash (now rest : Str) (resp : HttpResp)
    (h200 : resp.status_code = 200)
    (htarget : resp.payload.target = CONTROLURL ++ '/' :: rest)
    (hsingle : rest.head? ≠ some '/')
    (hnomore : hasSub (CONTROLURL ++ ['/']) rest = false) :
    (outputLines now resp).head? =
      some ('"' :: (datasetPrefix ++ (CONTROLURL ++ '/' :: '/' :: rest) ++ ['"'])) := by
  have hdata : respData resp = resp.payload := by
    rw [respData, if_neg (by simp [h200])]
  have hsplit : CONTROLURL ++ '/' :: rest = (CONTROLURL ++ ['/']) ++ rest := by
    simp
  have hrepl : pyReplace (CONTROLURL ++ ['/']) (CONTROLURL ++ ['/', '/'])
      (CONTROLURL ++ '/' :: rest) = CONTROLURL ++ '/' :: '/' :: rest := by
    rw [hsplit, pyReplace_leading _ _ _ (by simp), pyReplace_no_occ _ _ _ hnomore]
    simp
  simp [outputLines, hdata, htarget, hrepl]

/-- Witness for C10 at a concrete one-character signal suffix. -/
theorem dataset_header_double_slash_witness :
    (outputLines [] ⟨200, [], ⟨CONTROLURL ++ '/' :: ['a'], []⟩⟩).head? =
      some ('"' :: (datasetPrefix ++ (CONTROLURL ++ '/' :: '/' :: ['a']) ++ ['"'])) :=
  dataset_header_double_slash [] ['a'] ⟨200, [], ⟨CONTROLURL ++ '/' :: ['a'], []⟩⟩
    rfl rfl (by decide) (by decide)

/- ----------------------------------------------------------------------
   C4: format-then-parse round trip of the data points
   ---------------------------------------------------------------------- -/

/-- The body-parsing loop of `query` (archiver_tool.py lines 122-128):
for each line after the two headers, split on whitespace; fewer than two
fields ends the loop (`break`); otherwise `float(split[1])` and
`strptime(split[0], ...)` are collected (an unparsable field raises —
modelled as `none`).  Returns `(timestamp, data)` in the source's
order. -/
def parseLines : List Str → Option (List Datetime × List PyFloat)
  | [] => some ([], [])
  | line :: rest =>
    match splitWs line with
    | a :: b :: _ =>
      match strptimeTs a, parseFloat b with
      | some tstamp, some v =>
          match parseLines rest with
          | some (ts, vs) => some (tstamp :: ts, v :: vs)
          | none => none
      | _, _ => none
    | _ => some ([], [])

/-- `datastr.split('\n')[2:]` followed by the parsing loop
(archiver_tool.py lines 121-129). -/
def query_body_parse (datastr : Str) : Option (List Datetime × List PyFloat) :=
  parseLines ((splitOnCh nlChar datastr).drop 2)

/-- Every digit character the renderer can emit is a digit (the renderer
is only ever called on values below ten, but totality keeps the lemma
unconditional). -/
theorem digitChar_isDigit_all (d : Nat) : (digitChar d).isDigit = true := by
  by_cases h : d < 10
  · exact digitChar_isDigit d h
  · have hd : d = d - 10 + 10 := by omega
    rw [hd]
    have h9 : digitChar (d - 10 + 10) = '9' := rfl
    rw [h9]
    decide

/-- No whitespace occurs in a formatted timestamp. -/
theorem strftimeTs_no_space (t : Datetime) :
    ∀ c ∈ strftimeTs t, isSpaceCh c = false := by
  have hfield : ∀ (w n : Nat), ∀ c ∈ padZeros w (natToChars n), isSpaceCh c = false :=
    fun w n c hm =>
      (isDigit_not_special c (padZeros_allDigits w _ (natToChars_allDigits n) c hm)).2.2.2.2
  intro c hc
  rw [strftimeTs] at hc
  rcases List.mem_append.mp hc with hc | hm
  swap
  · rcases List.mem_cons.mp hm with rfl | hm
    · decide
    · exact hfield 6 _ c hm
  rcases List.mem_append.mp hc with hc | hm
  swap
  · rcases List.mem_cons.mp hm with rfl | hm
    · decide
    · exact hfield 2 _ c hm
  rcases List.mem_append.mp hc with hc | hm
  swap
  · rcases List.mem_cons.mp hm with rfl | hm
    · decide
    · exact hfield 2 _ c hm
  rcases List.mem_append.mp hc with hc | hm
  swap
  · rcases List.mem_cons.mp hm with rfl | hm
    · decide
    · exact hfield 2 _ c hm
  rcases List.mem_append.mp hc with hc | hm
  swap
  · rcases List.mem_cons.mp hm with rfl | hm
    · decide
    · exact hfield 2 _ c hm
  rcases List.mem_append.mp hc with hc | hm
  swap
  · rcases List.mem_cons.mp hm with rfl | hm
    · decide
    · exact hfield 2 _ c hm
  exact hfield 4 _ c hc

/-- No whitespace occurs in a printed value. -/
theorem pyFloatStr_no_space (v : PyFloat) :
    ∀ c ∈ pyFloatStr v, isSpaceCh c = false := by
  have hfrac : ∀ c ∈ v.frac.map digitChar, isSpaceCh c = false := by
    intro c hm
    rcases List.mem_map.mp hm with ⟨d, hd, rfl⟩
    exact (isDigit_not_special _ (digitChar_isDigit_all d)).2.2.2.2
  have hip : ∀ c ∈ pyNatStr v.intPart, isSpaceCh c = false := fun c hm =>
    (isDigit_not_special c (pyNatStr_allDigits _ c hm)).2.2.2.2
  intro c hc
  cases hneg : v.neg with
  | true =>
      have hstr : pyFloatStr v = '-' :: (pyNatStr v.intPart ++ '.' :: v.frac.map digitChar) := by
        rw [pyFloatStr, hneg]
        rfl
      rw [hstr] at hc
      rcases List.mem_cons.mp hc with rfl | hc
      · decide
      · rcases List.mem_append.mp hc with hm | hm
        · exact hip c hm
        · rcases List.mem_cons.mp hm with rfl | hm
          · decide
          · exact hfrac c hm
  | false =>
      have hstr : pyFloatStr v = pyNatStr v.intPart ++ '.' :: v.frac.map digitChar := by
        rw [pyFloatStr, hneg]
        rfl
      rw [hstr] at hc
      rcases List.mem_append.mp hc with hm | hm
      · exact hip c hm
      · rcases List.mem_cons.mp hm with rfl | hm
        · decide
        · exact hfrac c hm

/-- A formatted timestamp is nonempty. -/
theorem strftimeTs_ne_nil (t : Datetime) : strftimeTs t ≠ [] := by
  rw [strftimeTs]
  intro h
  simp at h

/-- A printed value is nonempty. -/
theorem pyFloatStr_ne_nil (v : PyFloat) : pyFloatStr v ≠ [] := by
  rw [pyFloatStr]
  intro h
  simp at h

/-- A printed value, numeric or null, contains no whitespace. -/
theorem pyValueStr_no_space (v : Option PyFloat) :
    ∀ c ∈ pyValueStr v, isSpaceCh c = false := by
  cases v with
  | some f => exact pyFloatStr_no_space f
  | none => decide

/-- A printed value, numeric or null, is nonempty. -/
theorem pyValueStr_ne_nil (v : Option PyFloat) : pyValueStr v ≠ [] := by
  cases v with
  | some f => exact pyFloatStr_ne_nil f
  | none => simp [pyValueStr]

/-- The body line of one data point splits into exactly its two fields. -/
theorem splitWs_formatLine (p : Option PyFloat × Datetime) :
    splitWs (formatLine p) = [strftimeTs p.2, pyValueStr p.1] := by
  rw [formatLine, splitWs_token _ (strftimeTs_ne_nil p.2) (strftimeTs_no_space p.2),
    splitWs_single _ (pyValueStr_ne_nil p.1) (pyValueStr_no_space p.1)]

/-- The newline never occurs inside one body line. -/
theorem formatLine_no_nl (p : Option PyFloat × Datetime) : nlChar ∉ formatLine p := by
  intro hm
  rw [formatLine] at hm
  rcases List.mem_append.mp hm with hm | hm
  · exact absurd (strftimeTs_no_space p.2 _ hm) (by decide)
  · rcases List.mem_cons.mp hm with heq | hm
    · exact absurd heq (by decide)
    · exact absurd (pyValueStr_no_space p.1 _ hm) (by decide)

/-- Parsing the formatted body lines of non-null points (with the
trailing empty field left by the final newline) recovers the data
points in order. -/
theorem parseLines_body (pts : List (PyFloat × Datetime))
    (hv : ∀ p ∈ pts, validFloat p.1 ∧ validDT p.2) :
    parseLines ((pts.map
        (fun p => ((some p.1 : Option PyFloat), p.2))).map formatLine ++ [[]]) =
      some (pts.map Prod.snd, pts.map Prod.fst) := by
  induction pts with
  | nil => rfl
  | cons p rest ih =>
      obtain ⟨hvf, hvt⟩ := hv p (List.mem_cons_self _ _)
      simp only [List.map_cons, List.cons_append, parseLines, splitWs_formatLine,
        pyValueStr, strptime_strftime p.2 hvt, parseFloat_pyFloatStr p.1 hvf]
      have hih : parseLines
          (((rest.map (fun p => ((some p.1 : Option PyFloat), p.2))).map
            formatLine).append [[]]) =
          some (rest.map Prod.snd, rest.map Prod.fst) :=
        ih (fun q hq => hv q (List.mem_cons_of_mem _ hq))
      rw [hih]

/-- C4 counterexample.  The claim quantifies over all QueryResults, but
a RawDataPoint value may be null: for a response whose single data
point carries a null value, the formatter prints the word None
(`str(None)`), and `query`'s parsing loop then executes
`float('None')`, which raises `ValueError` — the parse fails (`none`)
instead of reproducing the original one-point sequence. -/
theorem format_parse_null_counterexample :
    query_body_parse (parse_response [] ⟨200, [],
        ⟨['t'], [((none : Option PyFloat), ⟨2021, 2, 3, 4, 5, 6, 7⟩)]⟩⟩) = none := by
  have hout : outputLines [] ⟨200, [],
      ⟨['t'], [((none : Option PyFloat), ⟨2021, 2, 3, 4, 5, 6, 7⟩)]⟩⟩ =
      ('"' :: (datasetPrefix ++ ['t'] ++ ['"'])) ::
      ('"' :: (snapshotPrefix ++ [] ++ ['"'])) ::
      [formatLine ((none : Option PyFloat), ⟨2021, 2, 3, 4, 5, 6, 7⟩)] := by
    simp [outputLines, respData,
      pyReplace_no_occ _ _ _ (by decide : hasSub (CONTROLURL ++ ['/']) ['t'] = false)]
  simp only [query_body_parse, parse_response]
  rw [hout]
  rfl

/-- C4 as amended.  For every QueryResult all of whose data-point values
are non-null numerics, formatting with `parse_response` and parsing the
`<timestamp> <value>` body lines back with `query`'s parsing loop
reproduces the original sequence of (instant, value) pairs.  The
instants are the microsecond-precision datetimes obtained from the
backend's epoch milliseconds (that conversion is injective, so this
holds modulo exactly the claimed truncation); non-null values are
printed decimals, whose `str`/`float` round trip Python guarantees.  A
null value breaks the round trip — see the counterexample. -/
theorem format_parse_roundtrip_amended (now target text : Str)
    (pts : List (PyFloat × Datetime))
    (hnow : nlChar ∉ now) (htarget : nlChar ∉ target)
    (hrep : hasSub (CONTROLURL ++ ['/']) target = false)
    (hv : ∀ p ∈ pts, validFloat p.1 ∧ validDT p.2) :
    query_body_parse (parse_response now ⟨200, text,
        ⟨target, pts.map (fun p => ((some p.1 : Option PyFloat), p.2))⟩⟩) =
      some (pts.map Prod.snd, pts.map Prod.fst) := by
  have hdata : respData ⟨200, text,
      ⟨target, pts.map (fun p => ((some p.1 : Option PyFloat), p.2))⟩⟩ =
      ⟨target, pts.map (fun p => ((some p.1 : Option PyFloat), p.2))⟩ := by
    rw [respData, if_neg (by simp)]
  have hout : outputLines now ⟨200, text,
      ⟨target, pts.map (fun p => ((some p.1 : Option PyFloat), p.2))⟩⟩ =
      ('"' :: (datasetPrefix ++ target ++ ['"'])) ::
      ('"' :: (snapshotPrefix ++ now ++ ['"'])) ::
      (pts.map (fun p => ((some p.1 : Option PyFloat), p.2))).map formatLine := by
    simp only [outputLines, hdata, pyReplace_no_occ _ _ _ hrep]
  have hnl1 : nlChar ∉ ('"' :: (datasetPrefix ++ target ++ ['"'])) := by
    intro hm
    rcases List.mem_cons.mp hm with heq | hm
    · exact absurd heq (by decide)
    rcases List.mem_append.mp hm with hm | hm
    · rcases List.mem_append.mp hm with hm | hm
      · exact absurd hm (by decide)
      · exact htarget hm
    · exact absurd (List.mem_singleton.mp hm) (by decide)
  have hnl2 : nlChar ∉ ('"' :: (snapshotPrefix ++ now ++ ['"'])) := by
    intro hm
    rcases List.mem_cons.mp hm with heq | hm
    · exact absurd heq (by decide)
    rcases List.mem_append.mp hm with hm | hm
    · rcases List.mem_append.mp hm with hm | hm
      · exact absurd hm (by decide)
      · exact hnow hm
    · exact absurd (List.mem_singleton.mp hm) (by decide)
  have hallnl : ∀ l ∈ outputLines now ⟨200, text,
      ⟨target, pts.map (fun p => ((some p.1 : Option PyFloat), p.2))⟩⟩, nlChar ∉ l := by
    rw [hout]
    intro l hl
    rcases List.mem_cons.mp hl with rfl | hl
    · exact hnl1
    rcases List.mem_cons.mp hl with rfl | hl
    · exact hnl2
    rcases List.mem_map.mp hl with ⟨p, hp, rfl⟩
    exact formatLine_no_nl p
  have hlines : splitOnCh nlChar (parse_response now ⟨200, text,
      ⟨target, pts.map (fun p => ((some p.1 : Option PyFloat), p.2))⟩⟩) =
      outputLines now ⟨200, text,
        ⟨target, pts.map (fun p => ((some p.1 : Option PyFloat), p.2))⟩⟩ ++ [[]] := by
    rw [parse_response]
    exact splitOnCh_joinSep nlChar _ (by rw [hout]; simp) hallnl
  rw [query_body_parse, hlines, hout]
  simp only [List.cons_append, List.drop_succ_cons, List.drop_zero]
  exact parseLines_body pts hv

/-- Witness for the amended C4 at a concrete one-point response. -/
theorem format_parse_roundtrip_amended_witness :
    query_body_parse (parse_response [] ⟨200, [],
        ⟨['t'], [((some ⟨false, 1, [5]⟩ : Option PyFloat), ⟨2021, 2, 3, 4, 5, 6, 7⟩)]⟩⟩) =
      some ([⟨2021, 2, 3, 4, 5, 6, 7⟩], [⟨false, 1, [5]⟩]) := by
  have h := format_parse_roundtrip_amended [] ['t'] []
    [(⟨false, 1, [5]⟩, ⟨2021, 2, 3, 4, 5, 6, 7⟩)]
    (by simp) (by decide) (by decide)
    (by
      intro p hp
      rcases List.mem_singleton.mp hp with rfl
      exact ⟨by decide, by decide⟩)
  simpa using h

/- ----------------------------------------------------------------------
   C6: the sampling-interval validator `interval_value`
   ---------------------------------------------------------------------- -/

/-- The fragment of Python regular expressions needed for the pattern
used by `interval_value`: character classes, concatenation, repetition,
and the empty word. -/
inductive RE where
  | eps : RE
  | cls : (Char → Bool) → RE
  | seq : RE → RE → RE
  | star : RE → RE

/-- Standard regular-expression matching semantics: a derivation that a
regex matches exactly a string. -/
inductive REMatches : RE → Str → Prop where
  | eps : REMatches RE.eps []
  | cls {p : Char → Bool} {c : Char} : p c = true → REMatches (RE.cls p) [c]
  | seq {a b : RE} {s1 s2 : Str} :
      REMatches a s1 → REMatches b s2 → REMatches (RE.seq a b) (s1 ++ s2)
  | starNil {r : RE} : REMatches (RE.star r) []
  | starCons {r : RE} {s1 s2 : Str} :
      REMatches r s1 → REMatches (RE.star r) s2 → REMatches (RE.star r) (s1 ++ s2)

/-- One-or-more repetition, as the regex `+` desugars. -/
def plusRE (r : RE) : RE := RE.seq r (RE.star r)

/-- The class matched by `\d`. -/
def digitB (c : Char) : Bool := c.isDigit

/-- The class matched by the escaped literal dot `\.`. -/
def dotB (c : Char) : Bool := decide (c = '.')

/-- The class matched by `[smh]`. -/
def unitB (c : Char) : Bool :=
  decide (c = 's') || decide (c = 'm') || decide (c = 'h')

/-- The core of the pattern used by `interval_value` (archiver_tool.py
line 133), `\d+\.*\d*[smh]`, before the `$` anchor. -/
def intervalRE : RE :=
  RE.seq (RE.seq (RE.seq (plusRE (RE.cls digitB)) (RE.star (RE.cls dotB)))
    (RE.star (RE.cls digitB))) (RE.cls unitB)

/-- Acceptance by `re.match(r'\d+\.*\d*[smh]$', s)`: a match anchored at
the start of the string whose `$` sits at the end of the string or just
before one final newline — Python's `$` semantics without MULTILINE.
`interval_value` returns the value exactly when this holds, and raises
`ArgumentTypeError` otherwise. -/
def interval_value_accepts (s : Str) : Prop :=
  ∃ u v, s = u ++ v ∧ REMatches intervalRE u ∧ (v = [] ∨ v = [nlChar])

/-- An executable scanner equivalent to the validator's regex: one or
more digits, any number of dots, optional digits, one unit letter, and
at most one trailing newline.  (The character classes are pairwise
disjoint, so greedy scanning is complete.) -/
def intervalScan (s : Str) : Bool :=
  match s with
  | [] => false
  | c :: _ =>
    if digitB c then
      match ((s.dropWhile digitB).dropWhile dotB).dropWhile digitB with
      | [u] => unitB u
      | [u, w] => unitB u && decide (w = nlChar)
      | _ => false
    else false

/-- The spec's words: a sampling interval is validated as
`<number>[smh]` — a decimal number (digits with at most one decimal
point) directly followed by a unit letter. -/
def specNumberInterval (s : Str) : Bool :=
  match s.reverse with
  | [] => false
  | u :: restRev =>
      unitB u && restRev.reverse.any digitB &&
      restRev.reverse.all (fun c => digitB c || dotB c) &&
      decide ((restRev.reverse.filter dotB).length ≤ 1)

/-- A star of a class matches any string drawn from the class. -/
theorem star_cls_of_all (p : Char → Bool) :
    ∀ l : Str, (∀ c ∈ l, p c = true) → REMatches (RE.star (RE.cls p)) l := by
  intro l
  induction l with
  | nil => intro _; exact REMatches.starNil
  | cons c l ih =>
      intro h
      exact REMatches.starCons (REMatches.cls (h c (List.mem_cons_self _ _)))
        (ih (fun x hx => h x (List.mem_cons_of_mem _ hx)))

/-- A plus of a class matches any nonempty string drawn from the class. -/
theorem plus_cls_of_all (p : Char → Bool) (l : Str) (hne : l ≠ [])
    (h : ∀ c ∈ l, p c = true) : REMatches (plusRE (RE.cls p)) l := by
  cases l with
  | nil => exact absurd rfl hne
  | cons c l =>
      exact REMatches.seq (REMatches.cls (h c (List.mem_cons_self _ _)))
        (star_cls_of_all p l (fun x hx => h x (List.mem_cons_of_mem _ hx)))

/-- Inversion: a star of a class only matches strings drawn from the
class. -/
theorem star_cls_all {p : Char → Bool} :
    ∀ {r : RE} {s : Str}, REMatches r s → r = RE.star (RE.cls p) →
      ∀ c ∈ s, p c = true := by
  intro r s h
  induction h with
  | eps => intro hr; exact absurd hr (by simp)
  | cls hpc => intro hr; exact absurd hr (by simp)
  | seq h1 h2 ih1 ih2 => intro hr; exact absurd hr (by simp)
  | starNil =>
      intro _ c hc
      simp at hc
  | starCons h1 h2 ih1 ih2 =>
      intro hr c hc
      injection hr with hr
      subst hr
      rcases List.mem_append.mp hc with hc | hc
      · cases h1 with
        | cls hp =>
            rcases List.mem_singleton.mp hc with rfl
            exact hp
      · exact ih2 rfl c hc

/-- Inversion of a class match. -/
theorem cls_inv {p : Char → Bool} {s : Str} (h : REMatches (RE.cls p) s) :
    ∃ c, s = [c] ∧ p c = true := by
  cases h with
  | cls hp => exact ⟨_, rfl, hp⟩

/-- Inversion of a concatenation match. -/
theorem seq_inv {a b : RE} {s : Str} (h : REMatches (RE.seq a b) s) :
    ∃ s1 s2, s = s1 ++ s2 ∧ REMatches a s1 ∧ REMatches b s2 := by
  cases h with
  | seq h1 h2 => exact ⟨_, _, rfl, h1, h2⟩

/-- Dropping a predicate-satisfying prefix skips past a block that
satisfies it entirely. -/
theorem dropWhile_all_append (p : Char → Bool) :
    ∀ (a b : Str), (∀ c ∈ a, p c = true) →
      List.dropWhile p (a ++ b) = List.dropWhile p b := by
  intro a
  induction a with
  | nil => intro b _; rfl
  | cons c a ih =>
      intro b h
      rw [List.cons_append, List.dropWhile_cons, if_pos (h c (List.mem_cons_self _ _)),
        ih b (fun x hx => h x (List.mem_cons_of_mem _ hx))]

/-- Unit letters are neither digits nor dots. -/
theorem unit_not_digit_dot {u : Char} (h : unitB u = true) :
    digitB u = false ∧ dotB u = false := by
  simp only [unitB, Bool.or_eq_true, decide_eq_true_eq] at h
  rcases h with (rfl | rfl) | rfl <;> exact ⟨by decide, by decide⟩

/-- Dots are not digits. -/
theorem dot_not_digit {c : Char} (h : dotB c = true) : digitB c = false := by
  simp only [dotB, decide_eq_true_eq] at h
  subst h
  decide

/-- Digits are not dots. -/
theorem digit_not_dot {c : Char} (h : digitB c = true) : dotB c = false := by
  cases hd : dotB c with
  | false => rfl
  | true =>
      rw [dot_not_digit hd] at h
      cases h

/-- After skipping the leading digits, dots and digits of a
well-decomposed string, exactly the unit letter and the tail remain. -/
theorem interval_chain (s1 s2 s3 : Str) (uc : Char) (v : Str)
    (h1 : ∀ c ∈ s1, digitB c = true)
    (h2 : ∀ c ∈ s2, dotB c = true)
    (h3 : ∀ c ∈ s3, digitB c = true)
    (hu : unitB uc = true) :
    (((s1 ++ (s2 ++ (s3 ++ uc :: v))).dropWhile digitB).dropWhile dotB).dropWhile digitB
      = uc :: v := by
  obtain ⟨hud, hut⟩ := unit_not_digit_dot hu
  have huvD : List.dropWhile digitB (uc :: v) = uc :: v := by
    rw [List.dropWhile_cons, if_neg (by simp [hud])]
  have huvP : List.dropWhile dotB (uc :: v) = uc :: v := by
    rw [List.dropWhile_cons, if_neg (by simp [hut])]
  have hskip3 : List.dropWhile digitB (s3 ++ uc :: v) = uc :: v := by
    rw [dropWhile_all_append digitB s3 _ h3, huvD]
  rw [dropWhile_all_append digitB s1 _ h1]
  cases s2 with
  | nil =>
      rw [List.nil_append, hskip3, huvP, huvD]
  | cons d2 s2' =>
      have hd2 : digitB d2 = false := dot_not_digit (h2 d2 (List.mem_cons_self _ _))
      rw [List.cons_append, List.dropWhile_cons, if_neg (by simp [hd2]), ← List.cons_append,
        dropWhile_all_append dotB (d2 :: s2') _ h2]
      cases s3 with
      | nil =>
          rw [List.nil_append] at hskip3 ⊢
          rw [huvP, hskip3]
      | cons d3 s3' =>
          have hd3 : dotB d3 = false := digit_not_dot (h3 d3 (List.mem_cons_self _ _))
          rw [List.cons_append, List.dropWhile_cons, if_neg (by simp [hd3]),
            ← List.cons_append, hskip3]

/-- The greedy three-stage decomposition of any string. -/
theorem three_stage_decomp (s : Str) :
    s = ((s.takeWhile digitB ++ (s.dropWhile digitB).takeWhile dotB) ++
          ((s.dropWhile digitB).dropWhile dotB).takeWhile digitB) ++
        (((s.dropWhile digitB).dropWhile dotB).dropWhile digitB) := by
  have h1 := List.takeWhile_append_dropWhile digitB s
  have h2 := List.takeWhile_append_dropWhile dotB (s.dropWhile digitB)
  have h3 := List.takeWhile_append_dropWhile digitB ((s.dropWhile digitB).dropWhile dotB)
  calc s = s.takeWhile digitB ++ s.dropWhile digitB := h1.symm
    _ = s.takeWhile digitB ++ ((s.dropWhile digitB).takeWhile dotB ++
          (s.dropWhile digitB).dropWhile dotB) := by rw [h2]
    _ = s.takeWhile digitB ++ ((s.dropWhile digitB).takeWhile dotB ++
          (((s.dropWhile digitB).dropWhile dotB).takeWhile digitB ++
            ((s.dropWhile digitB).dropWhile dotB).dropWhile digitB)) := by rw [h3]
    _ = _ := by simp [List.append_assoc]

/-- C6 as amended.  The validator accepts exactly the strings of the
form: one or more digits, then ANY number of dots, then optional
digits, then one of `s`/`m`/`h`, optionally followed by one trailing
newline (Python `$`).  This is not the same as `<number>[smh]` — see
the counterexample — and `"5x"` is still rejected. -/
theorem interval_regex_characterization :
    (∀ s : Str, interval_value_accepts s ↔ intervalScan s = true) ∧
    ¬ interval_value_accepts ('5' :: 'x' :: []) := by
  have main : ∀ s : Str, interval_value_accepts s ↔ intervalScan s = true := by
    intro s
    constructor
    · rintro ⟨u, v, rfl, hm, hv⟩
      obtain ⟨s123, s4, rfl, hm123, hm4⟩ := seq_inv hm
      obtain ⟨s12, s3, rfl, hm12, hm3⟩ := seq_inv hm123
      obtain ⟨s1, s2, rfl, hm1, hm2⟩ := seq_inv hm12
      obtain ⟨uc, rfl, huc⟩ := cls_inv hm4
      obtain ⟨t1, t2, rfl, hc1, hstar1⟩ := seq_inv hm1
      obtain ⟨c1, rfl, hc1d⟩ := cls_inv hc1
      have hs2dot := star_cls_all hm2 rfl
      have hs3d := star_cls_all hm3 rfl
      have ht2d := star_cls_all hstar1 rfl
      have hshape : (((([c1] ++ t2) ++ s2) ++ s3) ++ [uc]) ++ v =
          c1 :: (t2 ++ (s2 ++ (s3 ++ uc :: v))) := by
        simp [List.append_assoc]
      rw [hshape]
      simp only [intervalScan]
      rw [if_pos hc1d]
      have hchain := interval_chain (c1 :: t2) s2 s3 uc v
        (by
          intro c hc
          rcases List.mem_cons.mp hc with rfl | hc
          · exact hc1d
          · exact ht2d c hc)
        hs2dot hs3d huc
      have hchain2 : (((c1 :: (t2 ++ (s2 ++ (s3 ++ uc :: v)))).dropWhile
          digitB).dropWhile dotB).dropWhile digitB = uc :: v := by
        rw [show c1 :: (t2 ++ (s2 ++ (s3 ++ uc :: v))) =
            (c1 :: t2) ++ (s2 ++ (s3 ++ uc :: v)) from by simp]
        exact hchain
      rw [hchain2]
      rcases hv with rfl | rfl
      · simpa using huc
      · simp [huc]
    · intro hscan
      cases s with
      | nil => cases hscan
      | cons c s' =>
          simp only [intervalScan] at hscan
          by_cases hc : digitB c = true
          swap
          · rw [if_neg hc] at hscan
            cases hscan
          rw [if_pos hc] at hscan
          have hdecomp := three_stage_decomp (c :: s')
          have hT1 : ∀ x ∈ (c :: s').takeWhile digitB, digitB x = true :=
            fun x hx => List.mem_takeWhile_imp hx
          have hT2 : ∀ x ∈ ((c :: s').dropWhile digitB).takeWhile dotB, dotB x = true :=
            fun x hx => List.mem_takeWhile_imp hx
          have hT3 : ∀ x ∈ (((c :: s').dropWhile digitB).dropWhile dotB).takeWhile digitB,
              digitB x = true :=
            fun x hx => List.mem_takeWhile_imp hx
          have hT1ne : (c :: s').takeWhile digitB ≠ [] := by
            rw [List.takeWhile_cons_of_pos hc]
            simp
          cases hr3v : (((c :: s').dropWhile digitB).dropWhile dotB).dropWhile digitB with
          | nil =>
              rw [hr3v] at hscan
              simp at hscan
          | cons u rest =>
              cases rest with
              | nil =>
                  rw [hr3v] at hscan hdecomp
                  simp only [] at hscan
                  refine ⟨(((c :: s').takeWhile digitB ++
                      ((c :: s').dropWhile digitB).takeWhile dotB) ++
                      (((c :: s').dropWhile digitB).dropWhile dotB).takeWhile digitB) ++ [u],
                    [], by simpa using hdecomp, ?_, Or.inl rfl⟩
                  exact REMatches.seq
                    (REMatches.seq
                      (REMatches.seq (plus_cls_of_all digitB _ hT1ne hT1)
                        (star_cls_of_all dotB _ hT2))
                      (star_cls_of_all digitB _ hT3))
                    (REMatches.cls hscan)
              | cons w rest2 =>
                  cases rest2 with
                  | nil =>
                      rw [hr3v] at hscan hdecomp
                      simp only [Bool.and_eq_true, decide_eq_true_eq] at hscan
                      obtain ⟨hu, rfl⟩ := hscan
                      refine ⟨(((c :: s').takeWhile digitB ++
                          ((c :: s').dropWhile digitB).takeWhile dotB) ++
                          (((c :: s').dropWhile digitB).dropWhile dotB).takeWhile digitB) ++ [u],
                        [nlChar], ?_, ?_, Or.inr rfl⟩
                      · exact hdecomp.trans (by simp)
                      · exact REMatches.seq
                          (REMatches.seq
                            (REMatches.seq (plus_cls_of_all digitB _ hT1ne hT1)
                              (star_cls_of_all dotB _ hT2))
                            (star_cls_of_all digitB _ hT3))
                          (REMatches.cls hu)
                  | cons _ _ =>
                      rw [hr3v] at hscan
                      simp at hscan
  refine ⟨main, ?_⟩
  intro hacc
  have := (main ('5' :: 'x' :: [])).mp hacc
  exact absurd this (by decide)

/-- C6 counterexample.  The validator's pattern `\d+\.*\d*[smh]$` allows
any number of dots, so it accepts `"1..2s"`, which is not of the
claimed form `<number>[smh]`. -/
theorem interval_regex_counterexample :
    interval_value_accepts ('1' :: '.' :: '.' :: '2' :: 's' :: []) ∧
    specNumberInterval ('1' :: '.' :: '.' :: '2' :: 's' :: []) = false := by
  constructor
  · refine ⟨['1', '.', '.', '2', 's'], [], by simp, ?_, Or.inl rfl⟩
    have h1 : REMatches (plusRE (RE.cls digitB)) ['1'] :=
      plus_cls_of_all digitB ['1'] (by simp) (by decide)
    have h2 : REMatches (RE.star (RE.cls dotB)) ['.', '.'] :=
      star_cls_of_all dotB ['.', '.'] (by decide)
    have h3 : REMatches (RE.star (RE.cls digitB)) ['2'] :=
      star_cls_of_all digitB ['2'] (by decide)
    have h4 : REMatches (RE.cls unitB) ['s'] := REMatches.cls (by decide)
    have h := REMatches.seq (REMatches.seq (REMatches.seq h1 h2) h3) h4
    simpa [intervalRE] using h
  · decide

/-- Witness for the amended C6: a well-formed interval is accepted. -/
theorem interval_regex_characterization_witness :
    interval_value_accepts ('1' :: 'm' :: []) :=
  (interval_regex_characterization.1 ('1' :: 'm' :: [])).mpr (by decide)
